import Mathlib

/-!
Shallow embedding of the legacy BLAST database readers
(src/app/blastdb/legacy_header_reader.cpp and src/app/blastdb/psq_reader.cpp)
and proofs about the claims of the specification.

Buffers are modelled as `List Nat`, each entry one byte of the file; every
access goes through `byteAt`, which reduces modulo 256, so that all values
read from a buffer are genuine bytes exactly as in the C++ `std::uint8_t`
vectors.  Errors thrown with C++ exceptions are modelled with explicit
result types carrying the exception message; loops are modelled with a
fuel parameter, and a distinguished `fuelOut` result stands for a
computation that did not finish within the given fuel (so a function whose
result is `fuelOut` for every fuel diverges).
-/

/-- Byte access into a buffer: `buffer[i]` of a `std::vector<std::uint8_t>`.
Out-of-range positions never occur on the paths the C++ takes (every read
is guarded by a bounds check first); the default 0 is irrelevant there. -/
def byteAt (buf : List Nat) (i : Nat) : Nat := buf.getD i 0 % 256

/-- Big-endian accumulation `value = (value << 8) | buffer[offset + i]` over
`count` bytes starting at `off` (the loop bodies of `ReadBE32`,
`BinaryCursor::ReadUInt32` and `BinaryCursor::ReadUInt64`). -/
def beAcc (buf : List Nat) : Nat → Nat → Nat → Nat
  | _, 0, acc => acc
  | off, c+1, acc => beAcc buf (off+1) c (acc * 256 + byteAt buf off)

/-- The reversed accumulation of `ReadLE64`: `for (int i = 7; i >= 0; --i)
value = (value << 8) | buffer[offset + i]`.  `leAcc buf off 8 0` runs the
index `i` from 7 down to 0. -/
def leAcc (buf : List Nat) (off : Nat) : Nat → Nat → Nat
  | 0, acc => acc
  | i+1, acc => leAcc buf off i (acc * 256 + byteAt buf (off + i))

/-- Bytes `[off, off+count)` of the buffer as characters (the
`std::string(ptr, length)` constructions of `ParseString`, `ReadPascalString`
and `BinaryCursor::ReadString`). -/
def charsOf (buf : List Nat) : Nat → Nat → List Char
  | _, 0 => []
  | off, c+1 => Char.ofNat (byteAt buf off) :: charsOf buf (off+1) c

/-- Bytes `[off, off+count)` as a string. -/
def strOf (buf : List Nat) (off count : Nat) : String := String.mk (charsOf buf off count)

/-- Two's-complement wrap-around of `std::int64_t` arithmetic. -/
def int64wrap (n : Int) : Int := (n + 2^63) % 2^64 - 2^63

/-- Wrap a `std::uint32_t` value into a C++ `int` (`static_cast<int>`). -/
def int32wrap (n : Nat) : Int := if n < 2^31 then (n : Int) else (n : Int) - 2^32

/-- The accumulation loop of `ParseInteger`:
`value = (value << 8) | buffer[offset + i]` on `std::int64_t`. -/
def intAcc (buf : List Nat) : Nat → Nat → Int → Int
  | _, 0, acc => acc
  | off, c+1, acc => intAcc buf (off+1) c (int64wrap (acc * 256 + byteAt buf off))

/-- Result of a cursor read.  The C++ cursors advance an offset passed by
reference (legacy reader) or a member position (psq reader); when an
exception is thrown the offset keeps whatever value it had at the throw
site, so the error constructor records that position. -/
inductive CRes (α : Type) where
  | okC : α → Nat → CRes α
  | errC : String → Nat → CRes α
deriving DecidableEq

/-- Sequencing of cursor reads, threading the offset. -/
def cbind {α β : Type} : CRes α → (α → Nat → CRes β) → CRes β
  | .okC a o, f => f a o
  | .errC m o, _ => .errC m o

/-! ## Legacy reader cursor primitives (legacy_header_reader.cpp) -/

/-- `ReadBE32`: big-endian 32-bit read with bounds check before any
mutation of the offset. -/
def readBE32 (buf : List Nat) (off : Nat) : CRes Nat :=
  if off + 4 ≤ buf.length then .okC (beAcc buf off 4 0) (off + 4)
  else .errC "Unexpected end of file while reading 32-bit value" off

/-- `ReadLE64`: the 64-bit read of `total_residues`, iterating the eight
bytes in reverse order (`i = 7` down to `0`) and shifting left by 8. -/
def readLE64 (buf : List Nat) (off : Nat) : CRes Nat :=
  if off + 8 ≤ buf.length then .okC (leAcc buf off 8 0) (off + 8)
  else .errC "Unexpected end of file while reading 64-bit value" off

/-- `ReadPascalString`: a big-endian 32-bit length followed by that many raw
bytes.  Note that when the body check fails the offset has already been
advanced past the four length bytes by `ReadBE32`. -/
def readPascalString (buf : List Nat) (off : Nat) : CRes String :=
  cbind (readBE32 buf off) fun len o =>
    if o + len ≤ buf.length then .okC (strOf buf o len) (o + len)
    else .errC "String length exceeds file size" o

/-! ## psq reader cursor primitives (psq_reader.cpp, BinaryCursor) -/

/-- The 32-bit big-endian value at position `pos` (the explicit shift
expression used both in `ReadUInt32` and in the offset-table scan). -/
def be32At (buf : List Nat) (pos : Nat) : Nat :=
  byteAt buf pos * 16777216 + byteAt buf (pos+1) * 65536 +
    byteAt buf (pos+2) * 256 + byteAt buf (pos+3)

/-- `BinaryCursor::ReadUInt32`: `EnsureAvailable(4)` then four shifted bytes. -/
def readUInt32 (buf : List Nat) (pos : Nat) : CRes Nat :=
  if pos + 4 ≤ buf.length then .okC (be32At buf pos) (pos + 4)
  else .errC "PIN file ended unexpectedly" pos

/-- `BinaryCursor::ReadUInt64`: `EnsureAvailable(8)` then
`for (int i = 0; i < 8; ++i) value = (value << 8) | m_Data[m_Pos + i]`:
the eight bytes are consumed in forward order (plain big-endian). -/
def readUInt64 (buf : List Nat) (pos : Nat) : CRes Nat :=
  if pos + 8 ≤ buf.length then .okC (beAcc buf pos 8 0) (pos + 8)
  else .errC "PIN file ended unexpectedly" pos

/-- `BinaryCursor::ReadString`: a `ReadUInt32` length (which advances the
position) followed by `EnsureAvailable(length)` and the raw bytes. -/
def readStringPsq (buf : List Nat) (pos : Nat) : CRes String :=
  cbind (readUInt32 buf pos) fun len o =>
    if o + len ≤ buf.length then .okC (strOf buf o len) (o + len)
    else .errC "PIN file ended unexpectedly" o

/-! ## Legacy index parser (`ParsePinFile`) -/

/-- The typed index record of legacy_header_reader.cpp. -/
structure PinIndex where
  version : Nat
  is_protein : Bool
  volume_number : Nat
  title : String
  lmdb_file : String
  date : String
  num_oids : Nat
  total_length : Nat
  max_length : Nat
  header_offsets : List Nat
  sequence_offsets : List Nat
  ambiguity_offsets : List Nat
deriving DecidableEq

/-- The `read_offset_array` lambda of `ParsePinFile`: `count` big-endian
32-bit reads through the cursor. -/
def readOffsetArray (buf : List Nat) : Nat → Nat → CRes (List Nat)
  | off, 0 => .okC [] off
  | off, c+1 =>
    cbind (readBE32 buf off) fun v o =>
    cbind (readOffsetArray buf o c) fun vs o2 => .okC (v :: vs) o2

/-- `ParsePinFile` on the index-file bytes.  Trailing bytes after the known
fields only provoke a warning on stderr in the C++ and do not change the
returned record, so they are not part of the result here. -/
def parsePinFile (data : List Nat) : CRes PinIndex :=
  cbind (readBE32 data 0) fun version o1 =>
  if version ≠ 4 ∧ version ≠ 5 then
    .errC ("Unsupported database format version: " ++ toString version) o1
  else
  cbind (readBE32 data o1) fun seqTypeFlag o2 =>
  let is_protein := seqTypeFlag == 1
  cbind (if version = 5 then readBE32 data o2 else .okC 0 o2) fun volume o3 =>
  cbind (readPascalString data o3) fun title o4 =>
  cbind (if version = 5 then readPascalString data o4 else .okC "" o4) fun lmdb o5 =>
  cbind (readPascalString data o5) fun date o6 =>
  cbind (readBE32 data o6) fun numOids o7 =>
  cbind (readLE64 data o7) fun total o8 =>
  cbind (readBE32 data o8) fun maxLen o9 =>
  cbind (readOffsetArray data o9 (numOids + 1)) fun hoffs o10 =>
  cbind (readOffsetArray data o10 (numOids + 1)) fun soffs o11 =>
  cbind (if is_protein then .okC [] o11 else readOffsetArray data o11 (numOids + 1)) fun aoffs o12 =>
  .okC ⟨version, is_protein, volume, title, lmdb, date, numOids, total, maxLen, hoffs, soffs, aoffs⟩ o12

/-- The slicing loop of `ExtractHeaders`: record `i` gets the bytes
`[header_offsets[i], header_offsets[i+1])` of the header file.  The C++
indexes the offset table with `.at`; `ParsePinFile` always produces tables
of length `num_oids + 1`, so those accesses are in range whenever this is
reached and `getD` matches them. -/
def extractHeadersGo (hoffs : List Nat) (data : List Nat) : Nat → Nat → Except String (List (List Nat))
  | _, 0 => .ok []
  | i, c+1 =>
    let s := hoffs.getD i 0
    let e := hoffs.getD (i+1) 0
    if e < s ∨ data.length < e then
      .error ("Header offsets for OID " ++ toString i ++ " are invalid")
    else
      match extractHeadersGo hoffs data (i+1) c with
      | .ok rest => .ok (((data.drop s).take (e - s)) :: rest)
      | .error m => .error m

/-- `ExtractHeaders`: one raw header blob per record. -/
def extractHeaders (idx : PinIndex) (data : List Nat) : Except String (List (List Nat)) :=
  extractHeadersGo idx.header_offsets data 0 idx.num_oids

/-! ## psq index parser (`ParsePin`) -/

/-- The index record of psq_reader.cpp. -/
structure PsqPinIndex where
  version : Int
  sequence_type : Int
  volume_number : Nat
  title : String
  lmdb_name : String
  creation_date : String
  num_sequences : Nat
  total_residues : Nat
  max_length : Nat
  sequence_offsets : List Nat
deriving DecidableEq

/-- `region_bytes` of `ParsePin`: `(num_sequences + 1) * 4` computed in
`std::uint32_t` before widening, hence the reduction. -/
def psqRegionBytes (num : Nat) : Nat := ((num + 1) % 4294967296) * 4

/-- The sequence-offset table of `ParsePin`: `num + 1` big-endian words
read by direct indexing starting right after the header-offset region
(which itself starts at the cursor position `p9` after `max_length`). -/
def psqSequenceOffsets (data : List Nat) (p9 num : Nat) : List Nat :=
  (List.range (num + 1)).map fun i => be32At data (p9 + psqRegionBytes num + i * 4)

/-- `ParsePin` of psq_reader.cpp.  It reads the version word and then the
sequence-type word before checking the version; the two offset tables are
not read through the cursor but via direct indexing after a single bounds
check, so the final cursor position is the one after `max_length`. -/
def parsePin (data : List Nat) : CRes PsqPinIndex :=
  cbind (readUInt32 data 0) fun ver p1 =>
  cbind (readUInt32 data p1) fun ty p2 =>
  if int32wrap ver ≠ 4 ∧ int32wrap ver ≠ 5 then
    .errC ("Unsupported PIN format version: " ++ toString (int32wrap ver)) p2
  else
  cbind (if int32wrap ver = 5 then readUInt32 data p2 else .okC 0 p2) fun volume p3 =>
  cbind (readStringPsq data p3) fun title p4 =>
  cbind (if int32wrap ver = 5 then readStringPsq data p4 else .okC "" p4) fun lmdb p5 =>
  cbind (readStringPsq data p5) fun date p6 =>
  cbind (readUInt32 data p6) fun num p7 =>
  cbind (readUInt64 data p7) fun total p8 =>
  cbind (readUInt32 data p8) fun maxLen p9 =>
  if data.length < p9 + psqRegionBytes num + psqRegionBytes num then
    .errC "PIN offset tables are incomplete" p9
  else
  if (psqSequenceOffsets data p9 num).length < 2 ∨
      (psqSequenceOffsets data p9 num).getLastD 0 ≤ (psqSequenceOffsets data p9 num).headD 0 then
    .errC "PIN sequence offsets appear to be corrupt" p9
  else if int32wrap ty ≠ 1 then
    .errC "This reader only supports protein databases (type 1)" p9
  else
    .okC ⟨int32wrap ver, int32wrap ty, volume, title, lmdb, date, num, total, maxLen,
          psqSequenceOffsets data p9 num⟩ p9

/-! ## Sequence decoder (psq_reader.cpp) -/

/-- The fixed `kNcbistdaaToAscii` table (28 entries). -/
def ncbistdaaToAscii : List Char :=
  ['*', 'A', 'B', 'C', 'D', 'E', 'F', 'G', 'H', 'I', 'K', 'L', 'M',
   'N', 'P', 'Q', 'R', 'S', 'T', 'V', 'W', 'Y', 'X', 'Z', 'U', 'O',
   'J', '-']

/-- `DecodeResidue`: code 0 yields the NUL character, codes below 28 go
through the table, everything else yields a question mark. -/
def decodeResidue (code : Nat) : Char :=
  if code = 0 then Char.ofNat 0
  else if code < 28 then ncbistdaaToAscii.getD code '?'
  else '?'

/-- The decoding loop of `DecodeSequence`: `count` positions starting at
`pos`, stopping without emitting anything at the first NUL translation. -/
def decodeChars (buf : List Nat) : Nat → Nat → List Char
  | _, 0 => []
  | pos, c+1 =>
    let aa := decodeResidue (byteAt buf pos)
    if aa = Char.ofNat 0 then [] else aa :: decodeChars buf (pos+1) c

/-- `DecodeSequence` over the byte range `[start, stop)` of the sequence
file. -/
def decodeSequence (buf : List Nat) (start stop : Nat) : Except String String :=
  if stop < start ∨ buf.length < stop then
    .error "Sequence offsets exceed PSQ file length"
  else .ok (String.mk (decodeChars buf start (stop - start)))

/-! ## BER tag-length-value reader (legacy_header_reader.cpp) -/

/-- Result of a header-decoder step.  `err` carries the message of the
`PinParseError` thrown in the C++; `fuelOut` marks a computation that did
not complete within the available fuel. -/
inductive PRes (α : Type) where
  | ok : α → PRes α
  | err : String → PRes α
  | fuelOut : PRes α
deriving DecidableEq

/-- A decoded BER identifier octet: class bits, constructed bit, number.
The class is kept as the two high bits' value (0 universal, 1 application,
2 context-specific, 3 private). -/
structure BerTag where
  cls : Nat
  constructed : Bool
  number : Nat
deriving DecidableEq

/-- The long-form tag-number loop of `ReadTag`: while bytes remain, shift
the number left by 7 (on `std::uint32_t`, hence the reduction) and add the
low seven bits; stop after a byte with clear high bit.  Running out of
buffer simply ends the loop with the partially accumulated number. -/
def readTagLoop (buf : List Nat) : Nat → Nat → Nat → Nat × Nat
  | 0, off, acc => (acc, off)
  | c+1, off, acc =>
    let b := byteAt buf off
    let acc2 := (acc * 128 + b % 128) % 4294967296
    if b < 128 then (acc2, off+1) else readTagLoop buf c (off+1) acc2

/-- `ReadTag`: fails only when no byte remains at the start of the call. -/
def readTag (buf : List Nat) (off : Nat) : PRes (BerTag × Nat) :=
  if off < buf.length then
    if byteAt buf off % 32 = 31 then
      .ok (⟨byteAt buf off / 64, byteAt buf off / 32 % 2 == 1,
            (readTagLoop buf (buf.length - (off+1)) (off+1) 0).1⟩,
           (readTagLoop buf (buf.length - (off+1)) (off+1) 0).2)
    else .ok (⟨byteAt buf off / 64, byteAt buf off / 32 % 2 == 1, byteAt buf off % 32⟩, off+1)
  else .err "Unexpected end of buffer while reading BER tag"

/-- A decoded BER length. -/
structure BerLength where
  indefinite : Bool
  length : Nat
deriving DecidableEq

/-- The multi-byte body loop of `ReadLength`, with the in-loop bounds
check of the C++. -/
def readLenBytes (buf : List Nat) : Nat → Nat → Nat → PRes (Nat × Nat)
  | 0, off, acc => .ok (acc, off)
  | c+1, off, acc =>
    if off < buf.length then readLenBytes buf c (off+1) (acc * 256 + byteAt buf off)
    else .err "Unexpected end of buffer while reading BER length body"

/-- `ReadLength`: `0x80` is the indefinite form, a clear high bit is a
short definite length, and otherwise the low seven bits give the number of
following big-endian length bytes, constrained to 1..8. -/
def readLength (buf : List Nat) (off : Nat) : PRes (BerLength × Nat) :=
  if off < buf.length then
    if byteAt buf off = 128 then .ok (⟨true, 0⟩, off+1)
    else if byteAt buf off < 128 then .ok (⟨false, byteAt buf off⟩, off+1)
    else if byteAt buf off % 128 = 0 ∨ 8 < byteAt buf off % 128 then
      .err "Unsupported BER length size"
    else
      match readLenBytes buf (byteAt buf off % 128) (off+1) 0 with
      | .ok (l, o) => .ok (⟨false, l⟩, o)
      | .err e => .err e
      | .fuelOut => .fuelOut
  else .err "Unexpected end of buffer while reading BER length"

/-- `IsEoc`: a `00 00` end-of-contents marker starting at `off` (note the
C++ requires `off + 1 < buffer.size()`). -/
def isEoc (buf : List Nat) (off : Nat) : Bool :=
  decide (off + 1 < buf.length) && byteAt buf off == 0 && byteAt buf (off+1) == 0

/-- `ParseInteger`: big-endian two's complement of `length` bytes on
`std::int64_t`; zero length or running past the buffer is an error. -/
def parseInteger (buf : List Nat) (off len : Nat) : PRes (Int × Nat) :=
  if len = 0 ∨ buf.length < off + len then .err "Invalid integer length"
  else .ok (intAcc buf off len (if 128 ≤ byteAt buf off then -1 else 0), off + len)

/-- `ParseString`: `length` raw bytes as characters. -/
def parseString (buf : List Nat) (off len : Nat) : PRes (String × Nat) :=
  if buf.length < off + len then .err "String overruns buffer"
  else .ok (strOf buf off len, off + len)

/-- `IsVisibleLikeTag`: any universal string encoding is accepted. -/
def isVisibleLikeTag (t : BerTag) : Bool :=
  t.cls == 0 &&
    (t.number == 12 || t.number == 18 || t.number == 19 || t.number == 20 ||
     t.number == 21 || t.number == 22 || t.number == 25 || t.number == 26 ||
     t.number == 27 || t.number == 28 || t.number == 29 || t.number == 30)

/-- `TagNameFromNumber`: the fixed 20-entry Seq-id choice table with an
`unknown-<n>` fallback. -/
def tagNameFromNumber (n : Nat) : String :=
  match n with
  | 0 => "local" | 1 => "gibbsq" | 2 => "gibbmt" | 3 => "giim"
  | 4 => "genbank" | 5 => "embl" | 6 => "pir" | 7 => "swissprot"
  | 8 => "patent" | 9 => "other" | 10 => "general" | 11 => "gi"
  | 12 => "ddbj" | 13 => "prf" | 14 => "pdb" | 15 => "tpg"
  | 16 => "tpe" | 17 => "tpd" | 18 => "gpipe" | 19 => "named-annot-track"
  | _ => "unknown-" ++ toString n

/-- One decoded sequence identifier. -/
structure SeqId where
  type : String
  value : String
  version : Option Int
deriving DecidableEq

/-- One decoded definition line. -/
structure BlastDefLine where
  title : String
  seqids : List SeqId
  taxid : Option Int
deriving DecidableEq

/-- The `while` guard shared by the container-scanning loops: an
indefinite container ends at an end-of-contents marker, a definite one at
its computed end offset. -/
def loopEnd (buf : List Nat) (indef : Bool) (e off : Nat) : Bool :=
  if indef then isEoc buf off else decide (e ≤ off)

/-- `isalnum(ch) || ch == '_' || ch == '.'` on a raw byte ("C" locale). -/
def isWordByte (b : Nat) : Bool :=
  (48 ≤ b && b ≤ 57) || (65 ≤ b && b ≤ 90) || (97 ≤ b && b ≤ 122) || b == 95 || b == 46

/-- The last-resort scan of `ParseSeqId`: longest run (first wins ties) of
word bytes among `count` bytes starting at `i`. -/
def bestRunGo (buf : List Nat) : Nat → Nat → List Char → List Char → List Char
  | _, 0, cur, best => if best.length < cur.length then cur else best
  | i, c+1, cur, best =>
    let b := byteAt buf i
    if isWordByte b then bestRunGo buf (i+1) c (cur ++ [Char.ofNat b]) best
    else bestRunGo buf (i+1) c [] (if best.length < cur.length then cur else best)

/-- Longest word-byte run of the byte range `[s, e)`. -/
def bestRun (buf : List Nat) (s e : Nat) : String :=
  String.mk (bestRunGo buf s (e - s) [] [])

/-- `!entry.title.empty() || !entry.seqids.empty() || entry.taxid`: the
partial-line test of the per-defline catch handler. -/
def populated (d : BlastDefLine) : Bool :=
  !(d.title == "") || !d.seqids.isEmpty || d.taxid.isSome

/-- Result of the per-defline field loop: the C++ mutates `entry` in
place, so when an exception escapes the loop the partially filled entry is
still visible to the catch handler; `errF` therefore carries it. -/
inductive FRes where
  | okF : BlastDefLine → Nat → FRes
  | errF : BlastDefLine → String → FRes
  | fuelOutF : FRes
deriving DecidableEq

/-- Result of the top-level defline loop: the list built so far together
with the warning message (empty when no exception was caught).  There is
no error constructor because both catch handlers of `DecodeDeflineSet`
turn exceptions raised inside the loop into a normal return. -/
inductive DRes where
  | okD : List BlastDefLine → String → DRes
  | fuelOutD : DRes
deriving DecidableEq

/-! ## The header-blob decoder

All loops and mutually recursive routines of the header decoder are
defined in one mutual block over a fuel parameter: every function
consumes one unit of fuel on entry and hands the rest to everything it
calls, so the block is structurally recursive and computable; `fuelOut`
results only indicate insufficient fuel, never a decoding outcome. -/

mutual

/-- `SkipElement`: read tag and length, then skip a definite body after a
bounds check, or skip children up to the end-of-contents marker for an
indefinite constructed element. -/
def skipElement (buf : List Nat) : Nat → Nat → PRes Nat
  | 0, _ => .fuelOut
  | f+1, off =>
    match readTag buf off with
    | .err e => .err e
    | .fuelOut => .fuelOut
    | .ok (tag, o1) =>
      match readLength buf o1 with
      | .err e => .err e
      | .fuelOut => .fuelOut
      | .ok (len, o2) =>
        if len.indefinite then
          if tag.constructed then skipUntilEoc buf f o2
          else .err "Indefinite length used with primitive element"
        else if buf.length < o2 + len.length then .err "BER element exceeds buffer size"
        else .ok (o2 + len.length)

/-- The `while (true)` loop of `SkipElement`'s indefinite branch (also the
trailing-content loops of `ParseSeqIdField` and `ParseExplicitInteger`):
skip elements until an end-of-contents marker, then consume it. -/
def skipUntilEoc (buf : List Nat) : Nat → Nat → PRes Nat
  | 0, _ => .fuelOut
  | f+1, off =>
    if isEoc buf off then .ok (off + 2)
    else
      match skipElement buf f off with
      | .ok o => skipUntilEoc buf f o
      | .err e => .err e
      | .fuelOut => .fuelOut

/-- The chunk-concatenation loop of `ParseVisible` for a constructed
string: primitive definite string chunks are appended, anything else is
handed to `SkipElement` at the position after the chunk tag and length
(exactly as the C++ does). -/
def pvChunks (buf : List Nat) : Nat → Bool → Nat → Nat → String → PRes (String × Nat)
  | 0, _, _, _, _ => .fuelOut
  | f+1, indef, iend, off, acc =>
    if indef then
      if isEoc buf off then .ok (acc, off + 2)
      else pvChunkStep buf f indef iend off acc
    else
      if iend ≤ off then .ok (acc, off)
      else pvChunkStep buf f indef iend off acc

/-- One iteration body of the `ParseVisible` chunk loop. -/
def pvChunkStep (buf : List Nat) : Nat → Bool → Nat → Nat → String → PRes (String × Nat)
  | 0, _, _, _, _ => .fuelOut
  | f+1, indef, iend, off, acc =>
    match readTag buf off with
    | .err e => .err e
    | .fuelOut => .fuelOut
    | .ok (ctag, o1) =>
      match readLength buf o1 with
      | .err e => .err e
      | .fuelOut => .fuelOut
      | .ok (clen, o2) =>
        if isVisibleLikeTag ctag && !ctag.constructed && !clen.indefinite then
          match parseString buf o2 clen.length with
          | .ok (s, o3) => pvChunks buf f indef iend o3 (acc ++ s)
          | .err e => .err e
          | .fuelOut => .fuelOut
        else
          match skipElement buf f o2 with
          | .ok o3 => pvChunks buf f indef iend o3 acc
          | .err e => .err e
          | .fuelOut => .fuelOut

/-- `ParseVisible`: a primitive string-like element is read directly; a
constructed one is the concatenation of its primitive chunks. -/
def parseVisible (buf : List Nat) : Nat → Nat → PRes (String × Nat)
  | 0, _ => .fuelOut
  | f+1, off =>
    match readTag buf off with
    | .err e => .err e
    | .fuelOut => .fuelOut
    | .ok (itag, o1) =>
      match readLength buf o1 with
      | .err e => .err e
      | .fuelOut => .fuelOut
      | .ok (ilen, o2) =>
        if !isVisibleLikeTag itag then .err "Expected string type inside explicit tag"
        else if !itag.constructed then
          if ilen.indefinite then .err "Primitive string used with indefinite length"
          else parseString buf o2 ilen.length
        else
          pvChunks buf f ilen.indefinite (if ilen.indefinite then buf.length else o2 + ilen.length) o2 ""

/-- `ExtractVisibleLike`: permissive scan of `[off, limit)` for the first
string-like payload.  Each iteration ends with the forward-progress check
of the C++ (`offset <= element_start` raises, where `element_start` is the
iteration's starting offset `off`) before looping. -/
def extractVisibleLike (buf : List Nat) : Nat → Nat → Nat → PRes (Option String × Nat)
  | 0, _, _ => .fuelOut
  | f+1, off, limit =>
    if off < limit then
      if isEoc buf off then .ok (none, off + 2)
      else
        match readTag buf off with
        | .err e => .err e
        | .fuelOut => .fuelOut
        | .ok (tag, o1) =>
          match readLength buf o1 with
          | .err e => .err e
          | .fuelOut => .fuelOut
          | .ok (len, o2) =>
            if isVisibleLikeTag tag then
              if tag.constructed then
                match extractVisibleLike buf f o2 (if len.indefinite then limit else o2 + len.length) with
                | .ok (some s, o3) => .ok (some s, o3)
                | .ok (none, o3) =>
                  if (if !len.indefinite && o3 < o2 + len.length then o2 + len.length else o3) ≤ off then
                    .err "Failed to advance while scanning for string element"
                  else
                    extractVisibleLike buf f
                      (if !len.indefinite && o3 < o2 + len.length then o2 + len.length else o3) limit
                | .err e => .err e
                | .fuelOut => .fuelOut
              else if len.indefinite then .err "Primitive string used with indefinite length"
              else
                match parseString buf o2 len.length with
                | .ok (s, o3) => .ok (some s, o3)
                | .err e => .err e
                | .fuelOut => .fuelOut
            else if len.indefinite then
              if !tag.constructed then .err "Indefinite length used with primitive element"
              else
                match evlScan buf f o2 limit with
                | .ok (some s, o3) => .ok (some s, o3)
                | .ok (none, o3) =>
                  if o3 ≤ off then .err "Failed to advance while scanning for string element"
                  else extractVisibleLike buf f o3 limit
                | .err e => .err e
                | .fuelOut => .fuelOut
            else if buf.length < o2 + len.length then .err "BER element exceeds buffer size"
            else
              if o2 + len.length ≤ off then
                .err "Failed to advance while scanning for string element"
              else extractVisibleLike buf f (o2 + len.length) limit
    else .ok (none, off)

/-- The inner `while (true)` of `ExtractVisibleLike` for a non-string
indefinite constructed element: scan children with recursive calls until
an end-of-contents marker; note there is no forward-progress guard inside
this loop. -/
def evlScan (buf : List Nat) : Nat → Nat → Nat → PRes (Option String × Nat)
  | 0, _, _ => .fuelOut
  | f+1, off, limit =>
    if isEoc buf off then .ok (none, off + 2)
    else
      match extractVisibleLike buf f off limit with
      | .ok (some s, o) => .ok (some s, o)
      | .ok (none, o) => evlScan buf f o limit
      | .err e => .err e
      | .fuelOut => .fuelOut

/-- The trailing-content drain of `ParseExplicitVisible` for an indefinite
wrapper: `while (offset < end && !IsEoc(...)) SkipElement(...)`. -/
def pevDrain (buf : List Nat) : Nat → Nat → Nat → PRes Nat
  | 0, _, _ => .fuelOut
  | f+1, off, e =>
    if off < e && !isEoc buf off then
      match skipElement buf f off with
      | .ok o => pevDrain buf f o e
      | .err er => .err er
      | .fuelOut => .fuelOut
    else .ok off

/-- `ParseExplicitVisible`: try `ParseVisible`; on a parse error fall back
to the permissive `ExtractVisibleLike` scan from the wrapper start; then
drain an indefinite wrapper up to its end-of-contents marker, or jump to
the end of a definite wrapper. -/
def parseExplicitVisible (buf : List Nat) : Nat → Nat → BerLength → PRes (String × Nat)
  | 0, _, _ => .fuelOut
  | f+1, off, len =>
    match parseVisible buf f off with
    | .fuelOut => .fuelOut
    | .ok (s, o) => pevFinish buf f off len s o
    | .err _ =>
      match extractVisibleLike buf f off (if len.indefinite then buf.length else off + len.length) with
      | .ok (r, o) => pevFinish buf f off len (r.getD "") o
      | .err e => .err e
      | .fuelOut => .fuelOut

/-- The common tail of `ParseExplicitVisible` after the string has been
obtained (`start` is the wrapper-content start used for the definite end). -/
def pevFinish (buf : List Nat) : Nat → Nat → BerLength → String → Nat → PRes (String × Nat)
  | 0, _, _, _, _ => .fuelOut
  | f+1, start, len, s, o =>
    if len.indefinite then
      match pevDrain buf f o buf.length with
      | .ok o2 => .ok (s, if isEoc buf o2 then o2 + 2 else o2)
      | .err e => .err e
      | .fuelOut => .fuelOut
    else .ok (s, if o < start + len.length then start + len.length else o)

/-- `ParseExplicitInteger`: a universal primitive integer inside the
wrapper, then the same trailing-content handling as the visible case. -/
def parseExplicitInteger (buf : List Nat) : Nat → Nat → BerLength → PRes (Int × Nat)
  | 0, _, _ => .fuelOut
  | f+1, off, len =>
    match readTag buf off with
    | .err e => .err e
    | .fuelOut => .fuelOut
    | .ok (itag, o1) =>
      match readLength buf o1 with
      | .err e => .err e
      | .fuelOut => .fuelOut
      | .ok (ilen, o2) =>
        if itag.cls == 0 && itag.number == 2 && !ilen.indefinite then
          match parseInteger buf o2 ilen.length with
          | .ok (v, o3) =>
            if len.indefinite then
              match skipUntilEoc buf f o3 with
              | .ok o4 => .ok (v, o4)
              | .err e => .err e
              | .fuelOut => .fuelOut
            else .ok (v, if o3 < off + len.length then off + len.length else o3)
          | .err e => .err e
          | .fuelOut => .fuelOut
        else .err "Expected INTEGER inside explicit wrapper"

/-- The field loop of `ParseTextSeqId` (entered with the identifier's own
length already read).  Fields are dispatched on the tag number alone:
0 fills an empty `value`, 1 always overwrites `value`, 3 sets `version`,
anything else is skipped. -/
def textLoop (buf : List Nat) : Nat → Bool → Nat → Nat → SeqId → PRes (SeqId × Nat)
  | 0, _, _, _, _ => .fuelOut
  | f+1, indef, e, off, id =>
    if loopEnd buf indef e off then .ok (id, if indef then off + 2 else off)
    else
      match readTag buf off with
      | .err er => .err er
      | .fuelOut => .fuelOut
      | .ok (tag, o1) =>
        match readLength buf o1 with
        | .err er => .err er
        | .fuelOut => .fuelOut
        | .ok (flen, o2) =>
          match tag.number with
          | 0 =>
            if id.value == "" then
              if tag.constructed || flen.indefinite then
                match parseExplicitVisible buf f o2 flen with
                | .ok (s, o3) => textLoop buf f indef e o3 { id with value := s }
                | .err er => .err er
                | .fuelOut => .fuelOut
              else
                match parseString buf o2 flen.length with
                | .ok (s, o3) => textLoop buf f indef e o3 { id with value := s }
                | .err er => .err er
                | .fuelOut => .fuelOut
            else if flen.indefinite then
              match skipElement buf f o2 with
              | .ok o3 => textLoop buf f indef e o3 id
              | .err er => .err er
              | .fuelOut => .fuelOut
            else textLoop buf f indef e (o2 + flen.length) id
          | 1 =>
            if tag.constructed || flen.indefinite then
              match parseExplicitVisible buf f o2 flen with
              | .ok (s, o3) => textLoop buf f indef e o3 { id with value := s }
              | .err er => .err er
              | .fuelOut => .fuelOut
            else
              match parseString buf o2 flen.length with
              | .ok (s, o3) => textLoop buf f indef e o3 { id with value := s }
              | .err er => .err er
              | .fuelOut => .fuelOut
          | 3 =>
            if tag.constructed || flen.indefinite then
              match parseExplicitInteger buf f o2 flen with
              | .ok (v, o3) => textLoop buf f indef e o3 { id with version := some v }
              | .err er => .err er
              | .fuelOut => .fuelOut
            else
              match parseInteger buf o2 flen.length with
              | .ok (v, o3) => textLoop buf f indef e o3 { id with version := some v }
              | .err er => .err er
              | .fuelOut => .fuelOut
          | _ =>
            if flen.indefinite then
              match skipElement buf f o2 with
              | .ok o3 => textLoop buf f indef e o3 id
              | .err er => .err er
              | .fuelOut => .fuelOut
            else textLoop buf f indef e (o2 + flen.length) id

/-- `ParseTextSeqId`: read the identifier's length, run the field loop,
and (as the C++ does) consume two further bytes after an indefinite loop
in addition to the end-of-contents already consumed inside it. -/
def parseTextSeqId (buf : List Nat) : Nat → Nat → Option Nat → PRes (SeqId × Nat)
  | 0, _, _ => .fuelOut
  | f+1, off, endLimit =>
    match readLength buf off with
    | .err e => .err e
    | .fuelOut => .fuelOut
    | .ok (len, o1) =>
      let indef := len.indefinite
      match textLoop buf f indef (if indef then endLimit.getD buf.length else o1 + len.length) o1 ⟨"", "", none⟩ with
      | .ok (id, o2) => .ok (id, if indef then o2 + 2 else o2)
      | .err e => .err e
      | .fuelOut => .fuelOut

/-- The field loop of the PDB branch of `ParseSeqId`: the first universal
26 (VisibleString) field while `value` is empty becomes the value, the
first universal 2 (INTEGER) field while `version` is unset becomes the
version, everything else is stepped over by its length. -/
def pdbLoop (buf : List Nat) : Nat → Bool → Nat → Nat → SeqId → PRes (SeqId × Nat)
  | 0, _, _, _, _ => .fuelOut
  | f+1, indef, e, off, id =>
    if loopEnd buf indef e off then .ok (id, if indef then off + 2 else off)
    else
      match readTag buf off with
      | .err er => .err er
      | .fuelOut => .fuelOut
      | .ok (ftag, o1) =>
        match readLength buf o1 with
        | .err er => .err er
        | .fuelOut => .fuelOut
        | .ok (flen, o2) =>
          if flen.indefinite then .err "Indefinite length inside PDB-seq-id"
          else if ftag.cls == 0 && ftag.number == 26 && id.value == "" then
            match parseString buf o2 flen.length with
            | .ok (s, o3) => pdbLoop buf f indef e o3 { id with value := s }
            | .err er => .err er
            | .fuelOut => .fuelOut
          else if ftag.cls == 0 && ftag.number == 2 && id.version.isNone then
            match parseInteger buf o2 flen.length with
            | .ok (v, o3) => pdbLoop buf f indef e o3 { id with version := some v }
            | .err er => .err er
            | .fuelOut => .fuelOut
          else pdbLoop buf f indef e (o2 + flen.length) id

/-- `ParseSeqId`: dispatch on the context-specific choice tag, then the
last-resort recovery scan over the identifier's raw bytes when the value
is still empty. -/
def parseSeqId (buf : List Nat) : Nat → Nat → PRes (SeqId × Nat)
  | 0, _ => .fuelOut
  | f+1, off =>
    match readTag buf off with
    | .err e => .err e
    | .fuelOut => .fuelOut
    | .ok (tag, o1) =>
      let ty := tagNameFromNumber tag.number
      if tag.cls ≠ 2 then .err "Seq-id uses unexpected tag class"
      else
        let main : PRes (SeqId × Nat) :=
          if tag.constructed then
            if tag.number = 14 then
              match readLength buf o1 with
              | .err e => .err e
              | .fuelOut => .fuelOut
              | .ok (len, o2) =>
                pdbLoop buf f len.indefinite (if len.indefinite then buf.length else o2 + len.length) o2 ⟨ty, "", none⟩
            else
              match parseTextSeqId buf f o1 none with
              | .ok (id, o2) => .ok ({ id with type := ty }, o2)
              | .err e => .err e
              | .fuelOut => .fuelOut
          else
            match readLength buf o1 with
            | .err e => .err e
            | .fuelOut => .fuelOut
            | .ok (len, o2) =>
              if len.indefinite then .err "Unexpected indefinite length for primitive Seq-id"
              else
                match parseInteger buf o2 len.length with
                | .ok (v, o3) => .ok (⟨ty, toString v, none⟩, o3)
                | .err e => .err e
                | .fuelOut => .fuelOut
        match main with
        | .ok (id, o) =>
          if id.value == "" then
            let best := bestRun buf off o
            .ok ((if best == "" then id else { id with value := best }), o)
          else .ok (id, o)
        | .err e => .err e
        | .fuelOut => .fuelOut

/-- The element loop of `ParseSeqIdList`. -/
def silLoop (buf : List Nat) : Nat → Bool → Nat → Nat → List SeqId → PRes (List SeqId × Nat)
  | 0, _, _, _, _ => .fuelOut
  | f+1, indef, e, off, acc =>
    if indef then
      if isEoc buf off then .ok (acc, off + 2)
      else
        match parseSeqId buf f off with
        | .ok (id, o) => silLoop buf f indef e o (acc ++ [id])
        | .err er => .err er
        | .fuelOut => .fuelOut
    else
      if e ≤ off then .ok (acc, off)
      else
        match parseSeqId buf f off with
        | .ok (id, o) => silLoop buf f indef e o (acc ++ [id])
        | .err er => .err er
        | .fuelOut => .fuelOut

/-- `ParseSeqIdList`: a universal constructed SEQUENCE of Seq-ids. -/
def parseSeqIdList (buf : List Nat) : Nat → Nat → PRes (List SeqId × Nat)
  | 0, _ => .fuelOut
  | f+1, off =>
    match readTag buf off with
    | .err e => .err e
    | .fuelOut => .fuelOut
    | .ok (tag, o1) =>
      if tag.cls == 0 && tag.number == 16 && tag.constructed then
        match readLength buf o1 with
        | .err e => .err e
        | .fuelOut => .fuelOut
        | .ok (len, o2) =>
          silLoop buf f len.indefinite (if len.indefinite then buf.length else o2 + len.length) o2 []
      else .err "Expected SEQUENCE for Seq-id list"

/-- `ParseSeqIdField`: the explicit wrapper around the Seq-id list, with
trailing-content handling like the other explicit wrappers. -/
def parseSeqIdField (buf : List Nat) : Nat → Nat → PRes (List SeqId × Nat)
  | 0, _ => .fuelOut
  | f+1, off =>
    match readLength buf off with
    | .err e => .err e
    | .fuelOut => .fuelOut
    | .ok (len, o1) =>
      match parseSeqIdList buf f o1 with
      | .ok (ids, o2) =>
        if len.indefinite then
          match skipUntilEoc buf f o2 with
          | .ok o3 => .ok (ids, o3)
          | .err e => .err e
          | .fuelOut => .fuelOut
        else .ok (ids, if o2 < o1 + len.length then o1 + len.length else o2)
      | .err e => .err e
      | .fuelOut => .fuelOut

/-- The per-defline field loop of `DecodeDeflineSet` (the body of the
inner `try`).  A raised error carries the partially filled entry, exactly
as the C++ catch handler sees the mutated `entry`. -/
def fieldLoop (buf : List Nat) : Nat → Bool → Nat → Nat → BlastDefLine → FRes
  | 0, _, _, _, _ => .fuelOutF
  | f+1, indef, e, off, entry =>
    if loopEnd buf indef e off then .okF entry (if indef then off + 2 else off)
    else
      match readTag buf off with
      | .err er => .errF entry er
      | .fuelOut => .fuelOutF
      | .ok (ftag, o1) =>
        if ftag.cls ≠ 2 then
          match skipElement buf f o1 with
          | .ok o2 => fieldLoop buf f indef e o2 entry
          | .err er => .errF entry er
          | .fuelOut => .fuelOutF
        else
          match ftag.number with
          | 0 =>
            match readLength buf o1 with
            | .err er => .errF entry er
            | .fuelOut => .fuelOutF
            | .ok (len, o2) =>
              if ftag.constructed || len.indefinite then
                match parseExplicitVisible buf f o2 len with
                | .ok (s, o3) => fieldLoop buf f indef e o3 { entry with title := s }
                | .err er => .errF entry er
                | .fuelOut => .fuelOutF
              else
                match parseString buf o2 len.length with
                | .ok (s, o3) => fieldLoop buf f indef e o3 { entry with title := s }
                | .err er => .errF entry er
                | .fuelOut => .fuelOutF
          | 1 =>
            match parseSeqIdField buf f o1 with
            | .ok (ids, o2) => fieldLoop buf f indef e o2 { entry with seqids := ids }
            | .err er => .errF entry er
            | .fuelOut => .fuelOutF
          | 2 =>
            match readLength buf o1 with
            | .err er => .errF entry er
            | .fuelOut => .fuelOutF
            | .ok (len, o2) =>
              if ftag.constructed || len.indefinite then
                match parseExplicitInteger buf f o2 len with
                | .ok (v, o3) => fieldLoop buf f indef e o3 { entry with taxid := some v }
                | .err er => .errF entry er
                | .fuelOut => .fuelOutF
              else
                match parseInteger buf o2 len.length with
                | .ok (v, o3) => fieldLoop buf f indef e o3 { entry with taxid := some v }
                | .err er => .errF entry er
                | .fuelOut => .fuelOutF
          | _ =>
            match skipElement buf f o1 with
            | .ok o2 => fieldLoop buf f indef e o2 entry
            | .err er => .errF entry er
            | .fuelOut => .fuelOutF

/-- The top-level defline loop of `DecodeDeflineSet`.  Errors of a single
defline's fields are caught at the defline boundary: the partial entry is
kept when populated and the loop stops (the C++ handler does `break`).
All other errors inside the loop reach the outer catch, which also stops
and returns the list built so far; in both cases the message becomes the
warning. -/
def deflineLoop (buf : List Nat) : Nat → Bool → Nat → Nat → List BlastDefLine → DRes
  | 0, _, _, _, _ => .fuelOutD
  | f+1, indef, e, off, acc =>
    if loopEnd buf indef e off then .okD acc ""
    else
      match readTag buf off with
      | .err er => .okD acc er
      | .fuelOut => .fuelOutD
      | .ok (dtag, o1) =>
        if !(dtag.cls == 0 && dtag.number == 16 && dtag.constructed) then
          match skipElement buf f off with
          | .ok o2 => deflineLoop buf f indef e o2 acc
          | .err er => .okD acc er
          | .fuelOut => .fuelOutD
        else
          match readLength buf o1 with
          | .err er => .okD acc er
          | .fuelOut => .fuelOutD
          | .ok (dlen, o2) =>
            match fieldLoop buf f dlen.indefinite (if dlen.indefinite then buf.length else o2 + dlen.length) o2 ⟨"", [], none⟩ with
            | .okF entry o3 => deflineLoop buf f indef e o3 (acc ++ [entry])
            | .errF entry er => .okD (acc ++ (if populated entry then [entry] else [])) er
            | .fuelOutF => .fuelOutD

end

/-- `DecodeDeflineSet`: read the outer sequence tag and length (errors
here propagate to the caller), then run the defline loop, whose internal
errors have all been converted into a warning.  The result pairs the
decoded definition lines with the warning string (empty when none). -/
def decodeDeflineSet (blob : List Nat) (fuel : Nat) : PRes (List BlastDefLine × String) :=
  match readTag blob 0 with
  | .err e => .err e
  | .fuelOut => .fuelOut
  | .ok (t, o1) =>
    if !(t.cls == 0 && t.number == 16) then .err "Expected Blast-def-line-set sequence"
    else
      match readLength blob o1 with
      | .err e => .err e
      | .fuelOut => .fuelOut
      | .ok (len, o2) =>
        match deflineLoop blob fuel len.indefinite (if len.indefinite then blob.length else o2 + len.length) o2 [] with
        | .okD ls w => .ok (ls, w)
        | .fuelOutD => .fuelOut

/-! ## Helper lemmas -/

theorem byteAt_lt (buf : List Nat) (i : Nat) : byteAt buf i < 256 :=
  Nat.mod_lt _ (by norm_num)

theorem beAcc_four (buf : List Nat) (off : Nat) : beAcc buf off 4 0 = be32At buf off := by
  simp [beAcc, be32At]; ring

theorem beAcc_four_lt (buf : List Nat) (off : Nat) : beAcc buf off 4 0 < 4294967296 := by
  have h0 := byteAt_lt buf off
  have h1 := byteAt_lt buf (off+1)
  have h2 := byteAt_lt buf (off+1+1)
  have h3 := byteAt_lt buf (off+1+1+1)
  simp [beAcc]; omega

theorem int32wrap_eq_small (v k : Nat) (hv : v < 4294967296) (hk : k < 2147483648) :
    int32wrap v = (k : Int) ↔ v = k := by
  unfold int32wrap
  split <;> constructor <;> intro h <;> omega

/-! ## Claim C2 -/

/-- Modelled from the spec (§6), which describes `total_residues` as "the
high-order 32-bit word and low-order 32-bit word are each internally
big-endian but appear in little-endian word order": low word first, each
word big-endian. -/
def specWordSwapped64 (buf : List Nat) (off : Nat) : Nat :=
  beAcc buf (off+4) 4 0 * 4294967296 + beAcc buf off 4 0

/-- C2 counterexample: on the eight bytes `01 00 00 00 00 00 00 00`,
`ReadLE64` (reverse iteration) yields 1, `BinaryCursor::ReadUInt64` of the
psq reader yields `2^56` (it iterates forward, i.e. big-endian), and the
spec's word-swapped reading yields `2^24`; so the psq parser does not
reconstruct the field by reverse iteration, and the reverse iteration is
not equivalent to the word-swapped reading. -/
theorem claim_C2_counterexample :
    readLE64 [1,0,0,0,0,0,0,0] 0 = .okC 1 8 ∧
    readUInt64 [1,0,0,0,0,0,0,0] 0 = .okC 72057594037927936 8 ∧
    specWordSwapped64 [1,0,0,0,0,0,0,0] 0 = 16777216 ∧
    (72057594037927936 : Nat) ≠ 1 ∧ (16777216 : Nat) ≠ 1 := by decide

/-- C2 (amended): the legacy reader's `ReadLE64` reconstructs
`total_residues` by iterating the eight bytes in reverse and shifting left
by 8, which is a plain little-endian reading; the psq reader's
`ReadUInt64` instead reads the eight bytes in forward order (big-endian);
neither generally equals the spec's two-word-swapped reading. -/
theorem claim_C2_theorem (buf : List Nat) (off : Nat) (h : off + 8 ≤ buf.length) :
    readLE64 buf off =
      .okC (byteAt buf (off+7) * 72057594037927936 + byteAt buf (off+6) * 281474976710656 +
            byteAt buf (off+5) * 1099511627776 + byteAt buf (off+4) * 4294967296 +
            byteAt buf (off+3) * 16777216 + byteAt buf (off+2) * 65536 +
            byteAt buf (off+1) * 256 + byteAt buf off) (off + 8) ∧
    readUInt64 buf off =
      .okC (byteAt buf off * 72057594037927936 + byteAt buf (off+1) * 281474976710656 +
            byteAt buf (off+2) * 1099511627776 + byteAt buf (off+3) * 4294967296 +
            byteAt buf (off+4) * 16777216 + byteAt buf (off+5) * 65536 +
            byteAt buf (off+6) * 256 + byteAt buf (off+7)) (off + 8) := by
  constructor
  · simp [readLE64, h, leAcc]; ring
  · simp [readUInt64, h, beAcc]; ring

/-- C2 witness. -/
theorem claim_C2_witness :
    readLE64 [1,0,0,0,0,0,0,0] 0 =
      .okC (byteAt [1,0,0,0,0,0,0,0] 7 * 72057594037927936 +
            byteAt [1,0,0,0,0,0,0,0] 6 * 281474976710656 +
            byteAt [1,0,0,0,0,0,0,0] 5 * 1099511627776 +
            byteAt [1,0,0,0,0,0,0,0] 4 * 4294967296 +
            byteAt [1,0,0,0,0,0,0,0] 3 * 16777216 +
            byteAt [1,0,0,0,0,0,0,0] 2 * 65536 +
            byteAt [1,0,0,0,0,0,0,0] 1 * 256 + byteAt [1,0,0,0,0,0,0,0] 0) 8 := by
  have h := claim_C2_theorem [1,0,0,0,0,0,0,0] 0 (by decide)
  simpa using h.1

/-! ## Claim C3 -/

/-- C3 counterexample: on the four-byte index file `00 00 00 03` the psq
reader's `ParsePin` fails with the truncation message of its second
`ReadUInt32` (it reads the sequence-type word before checking the
version), not with the unsupported-version message; the legacy
`ParsePinFile` does fail with the unsupported-version message right after
the version word. -/
theorem claim_C3_counterexample :
    parsePin [0,0,0,3] = .errC "PIN file ended unexpectedly" 4 ∧
    parsePinFile [0,0,0,3] = .errC "Unsupported database format version: 3" 4 ∧
    "PIN file ended unexpectedly" ≠ "Unsupported PIN format version: 3" := by decide

/-- C3 (amended): when the first four bytes encode a version other than 4
or 5, the legacy `ParsePinFile` fails with the unsupported-version error
immediately after the version word; the psq `ParsePin` first reads the
sequence-type word as well, and only fails with its unsupported-version
error when at least eight bytes are present (a shorter file fails with the
truncation error instead, as the counterexample shows). -/
theorem claim_C3_theorem (data : List Nat) (v : Nat)
    (h : readBE32 data 0 = .okC v 4) (h4 : v ≠ 4) (h5 : v ≠ 5) :
    parsePinFile data = .errC ("Unsupported database format version: " ++ toString v) 4 ∧
    (8 ≤ data.length →
      parsePin data = .errC ("Unsupported PIN format version: " ++ toString (int32wrap v)) 8) := by
  have hv : v = beAcc data 0 4 0 ∧ (4:Nat) ≤ data.length := by
    unfold readBE32 at h
    split at h
    · exact ⟨(CRes.okC.injEq _ _ _ _).mp h |>.1.symm, by omega⟩
    · cases h
  have hvlt : v < 4294967296 := hv.1 ▸ beAcc_four_lt data 0
  constructor
  · simp [parsePinFile, h, cbind, h4, h5]
  · intro hlen
    have h32a : be32At data 0 = v := by rw [hv.1, beAcc_four]
    have hw4 : int32wrap v ≠ 4 := fun hc =>
      h4 ((int32wrap_eq_small v 4 hvlt (by norm_num)).mp hc)
    have hw5 : int32wrap v ≠ 5 := fun hc =>
      h5 ((int32wrap_eq_small v 5 hvlt (by norm_num)).mp hc)
    simp [parsePin, readUInt32, show (0:Nat) + 4 ≤ data.length by omega,
      show (4:Nat) + 4 ≤ data.length by omega, cbind, h32a, hw4, hw5]

/-- C3 witness. -/
theorem claim_C3_witness :
    parsePinFile [0,0,0,3,0,0,0,1] = .errC ("Unsupported database format version: " ++ toString 3) 4 ∧
    parsePin [0,0,0,3,0,0,0,1] = .errC ("Unsupported PIN format version: " ++ toString (int32wrap 3)) 8 := by
  have h := claim_C3_theorem [0,0,0,3,0,0,0,1] 3 (by decide) (by decide) (by decide)
  exact ⟨h.1, h.2 (by decide)⟩

/-! ## Claim C5 -/

/-- C5 counterexample: on the buffer `00 00 00 05` (a length prefix of 5
with no body), both length-prefixed string reads fail with the cursor
left at position 4 — advanced past the length prefix, not at its value 0
from the start of the call. -/
theorem claim_C5_counterexample :
    readPascalString [0,0,0,5] 0 = .errC "String length exceeds file size" 4 ∧
    readStringPsq [0,0,0,5] 0 = .errC "PIN file ended unexpectedly" 4 ∧
    (4 : Nat) ≠ 0 := by decide

/-- C5 (amended): the 32-bit and 64-bit cursor reads of both readers leave
the cursor unchanged when they fail; the length-prefixed string reads
leave it unchanged when the four length bytes themselves are missing, but
leave it advanced by exactly four (past the length prefix) when the
announced body overruns the buffer. -/
theorem claim_C5_theorem (buf : List Nat) (off : Nat) :
    (∀ m o, readBE32 buf off = .errC m o → o = off) ∧
    (∀ m o, readLE64 buf off = .errC m o → o = off) ∧
    (∀ m o, readUInt32 buf off = .errC m o → o = off) ∧
    (∀ m o, readUInt64 buf off = .errC m o → o = off) ∧
    (∀ m o, readPascalString buf off = .errC m o → o = off ∨ o = off + 4) ∧
    (∀ m o, readStringPsq buf off = .errC m o → o = off ∨ o = off + 4) := by
  refine ⟨?_, ?_, ?_, ?_, ?_, ?_⟩ <;> intro m o h
  · unfold readBE32 at h; split at h
    · cases h
    · exact ((CRes.errC.injEq _ _ _ _).mp h).2.symm
  · unfold readLE64 at h; split at h
    · cases h
    · exact ((CRes.errC.injEq _ _ _ _).mp h).2.symm
  · unfold readUInt32 at h; split at h
    · cases h
    · exact ((CRes.errC.injEq _ _ _ _).mp h).2.symm
  · unfold readUInt64 at h; split at h
    · cases h
    · exact ((CRes.errC.injEq _ _ _ _).mp h).2.symm
  · unfold readPascalString readBE32 at h
    split at h
    · simp only [cbind] at h
      split at h
      · cases h
      · exact Or.inr ((CRes.errC.injEq _ _ _ _).mp h).2.symm
    · simp only [cbind] at h
      exact Or.inl ((CRes.errC.injEq _ _ _ _).mp h).2.symm
  · unfold readStringPsq readUInt32 at h
    split at h
    · simp only [cbind] at h
      split at h
      · cases h
      · exact Or.inr ((CRes.errC.injEq _ _ _ _).mp h).2.symm
    · simp only [cbind] at h
      exact Or.inl ((CRes.errC.injEq _ _ _ _).mp h).2.symm

/-- C5 witness. -/
theorem claim_C5_witness : ((4 : Nat) = 0 ∨ (4 : Nat) = 0 + 4) ∧ (0 : Nat) = 0 :=
  ⟨(claim_C5_theorem [0,0,0,5] 0).2.2.2.2.1 "String length exceeds file size" 4 (by decide),
   (claim_C5_theorem [] 0).1 "Unexpected end of file while reading 32-bit value" 0 (by decide)⟩

/-! ## Claim C8 -/

theorem decodeResidue_eq_nul (b : Nat) (h : decodeResidue b = Char.ofNat 0) : b = 0 := by
  by_contra hb
  by_cases h28 : b < 28
  · have hlt : ∀ c, c < 28 → c ≠ 0 → decodeResidue c ≠ Char.ofNat 0 := by decide
    exact hlt b h28 hb h
  · have : decodeResidue b = '?' := by
      unfold decodeResidue
      rw [if_neg hb, if_neg h28]
    rw [this] at h
    cases h

theorem decodeChars_spec (buf : List Nat) :
    ∀ c pos,
      (decodeChars buf pos c).length ≤ c ∧
      (∀ i, i < (decodeChars buf pos c).length →
        (decodeChars buf pos c).getD i ' ' = decodeResidue (byteAt buf (pos+i)) ∧
        byteAt buf (pos+i) ≠ 0) ∧
      ((decodeChars buf pos c).length < c → byteAt buf (pos + (decodeChars buf pos c).length) = 0) := by
  intro c
  induction c with
  | zero => intro pos; simp [decodeChars]
  | succ c ih =>
    intro pos
    by_cases hnul : decodeResidue (byteAt buf pos) = Char.ofNat 0
    · have hdc : decodeChars buf pos (c+1) = [] := by
        simp only [decodeChars]; rw [if_pos hnul]
      refine ⟨by simp [hdc], by simp [hdc], ?_⟩
      intro _
      simpa [hdc] using decodeResidue_eq_nul _ hnul
    · have hdc : decodeChars buf pos (c+1) =
          decodeResidue (byteAt buf pos) :: decodeChars buf (pos+1) c := by
        simp only [decodeChars]; rw [if_neg hnul]
      obtain ⟨ih1, ih2, ih3⟩ := ih (pos+1)
      refine ⟨by simp [hdc]; omega, ?_, ?_⟩
      · intro i hi
        match i with
        | 0 =>
          refine ⟨by simp [hdc], fun hz => hnul ?_⟩
          have hz2 : byteAt buf pos = 0 := by simpa using hz
          rw [hz2]; rfl
        | j+1 =>
          rw [hdc] at hi
          simp only [List.length_cons] at hi
          have := ih2 j (by omega)
          constructor
          · rw [hdc]
            simpa [Nat.add_assoc, Nat.add_comm 1 j] using this.1
          · simpa [Nat.add_assoc, Nat.add_comm 1 j] using this.2
      · intro hlt
        rw [hdc] at hlt ⊢
        simp only [List.length_cons] at hlt ⊢
        have := ih3 (by omega)
        simpa [Nat.add_assoc, Nat.add_comm 1 _] using this

/-- C8: whenever `DecodeSequence` succeeds on the range `[start, stop)`,
every emitted character is the residue-table translation of the
corresponding byte, no byte before the stopping point is the code 0, an
early stop happens exactly on a code-0 byte (which is not emitted), and
the decoded length never exceeds `stop - start`; furthermore every code at
least 28 translates to a question mark. -/
theorem claim_C8_theorem :
    (∀ (buf : List Nat) (start stop : Nat) (s : String),
      decodeSequence buf start stop = .ok s →
      s.data.length ≤ stop - start ∧
      (∀ i, i < s.data.length →
        s.data.getD i ' ' = decodeResidue (byteAt buf (start+i)) ∧ byteAt buf (start+i) ≠ 0) ∧
      (s.data.length < stop - start → byteAt buf (start + s.data.length) = 0)) ∧
    (∀ c, 28 ≤ c → decodeResidue c = '?') := by
  constructor
  · intro buf start stop s h
    unfold decodeSequence at h
    split at h
    · cases h
    · have hs : s = String.mk (decodeChars buf start (stop - start)) :=
        ((Except.ok.injEq _ _).mp h).symm
      subst hs
      simpa using decodeChars_spec buf (stop - start) start
  · intro c hc
    unfold decodeResidue
    rw [if_neg (by omega), if_neg (by omega)]

/-- C8 witness: `[1,2,3,0,5]` over `[0,5)` decodes to `"ABC"` (stopping at
the code-0 byte), and code 30 maps to a question mark. -/
theorem claim_C8_witness :
    ("ABC".data.length ≤ 5 - 0 ∧ byteAt [1,2,3,0,5] (0 + "ABC".data.length) = 0) ∧
    decodeResidue 30 = '?' :=
  ⟨⟨(claim_C8_theorem.1 [1,2,3,0,5] 0 5 "ABC" rfl).1,
    (claim_C8_theorem.1 [1,2,3,0,5] 0 5 "ABC" rfl).2.2 (by decide)⟩,
   claim_C8_theorem.2 30 (by decide)⟩

/-! ## Claim C10 -/

theorem readTagLoop_high (buf : List Nat) :
    ∀ c off acc, c = buf.length - off → off ≤ buf.length →
      (∀ j, j < buf.length → off ≤ j → 128 ≤ byteAt buf j) →
      readTagLoop buf c off acc =
        ((buf.drop off).foldl (fun a b => (a * 128 + b % 128) % 4294967296) acc, buf.length) := by
  intro c
  induction c with
  | zero =>
    intro off acc hc hle _
    have hoff : off = buf.length := by omega
    subst hoff
    simp [readTagLoop, List.drop_length]
  | succ c ih =>
    intro off acc hc hle hhigh
    have hofflt : off < buf.length := by omega
    have hb : 128 ≤ byteAt buf off := hhigh off hofflt le_rfl
    have hstep : readTagLoop buf (c+1) off acc =
        readTagLoop buf c (off+1) ((acc * 128 + byteAt buf off % 128) % 4294967296) := by
      simp only [readTagLoop]
      rw [if_neg (by omega)]
    rw [hstep, ih (off+1) _ (by omega) (by omega) (fun j hj hj2 => hhigh j hj (by omega))]
    have hdrop : buf.drop off = buf[off] :: buf.drop (off+1) :=
      List.drop_eq_getElem_cons hofflt
    rw [hdrop, List.foldl_cons]
    have hbyte : byteAt buf off = buf[off] % 256 := by
      unfold byteAt
      rw [List.getD_eq_getElem _ _ hofflt]
    have hmod : buf[off] % 128 = byteAt buf off % 128 := by
      rw [hbyte, Nat.mod_mod_of_dvd _ (by norm_num)]
    rw [hmod]

/-- C10: `ReadTag` fails exactly when no byte remains at the start of the
call; and on a long-form tag whose continuation bytes all have the high
bit set up to the end of the buffer, it returns a tag carrying the
partially accumulated base-128 number (reduced modulo `2^32` like the C++
`std::uint32_t`) with the cursor at the end of the buffer, instead of
raising an error. -/
theorem claim_C10_theorem :
    (∀ (buf : List Nat) (off : Nat), (∃ e, readTag buf off = .err e) ↔ buf.length ≤ off) ∧
    (∀ (buf : List Nat) (off : Nat), off < buf.length → byteAt buf off % 32 = 31 →
      (∀ j, j < buf.length → off < j → 128 ≤ byteAt buf j) →
      readTag buf off =
        .ok (⟨byteAt buf off / 64, byteAt buf off / 32 % 2 == 1,
              (buf.drop (off+1)).foldl (fun a b => (a * 128 + b % 128) % 4294967296) 0⟩,
             buf.length)) := by
  constructor
  · intro buf off
    constructor
    · rintro ⟨e, he⟩
      by_contra hlt
      have hofflt : off < buf.length := by omega
      unfold readTag at he
      rw [if_pos hofflt] at he
      split at he <;> exact PRes.noConfusion he
    · intro hle
      refine ⟨"Unexpected end of buffer while reading BER tag", ?_⟩
      unfold readTag
      rw [if_neg (by omega)]
  · intro buf off hofflt h31 hhigh
    unfold readTag
    rw [if_pos hofflt, if_pos h31]
    rw [readTagLoop_high buf (buf.length - (off+1)) (off+1) 0 rfl (by omega)
      (fun j hj hj2 => hhigh j hj (by omega))]

/-- C10 witness: the two-byte buffer `1F 81` (long-form tag, continuation
byte with high bit set, then end of buffer) yields the partially
accumulated number 1 with no error. -/
theorem claim_C10_witness :
    readTag [31, 129] 0 = .ok (⟨0, false, 1⟩, 2) := by
  have h := claim_C10_theorem.2 [31, 129] 0 (by decide) (by decide)
    (by decide)
  rw [h]; decide

/-! ## Claim C4 -/

theorem cbind_okC {α β : Type} {x : CRes α} {f : α → Nat → CRes β} {b : β} {o : Nat}
    (h : cbind x f = .okC b o) : ∃ a m, x = .okC a m ∧ f a m = .okC b o := by
  cases x with
  | okC a m => exact ⟨a, m, rfl, h⟩
  | errC s m => exact absurd h (by simp [cbind])

theorem readOffsetArray_length (buf : List Nat) :
    ∀ c off l o, readOffsetArray buf off c = .okC l o → l.length = c := by
  intro c
  induction c with
  | zero =>
    intro off l o h
    unfold readOffsetArray at h
    injection h with h1 _
    rw [← h1]
    rfl
  | succ c ih =>
    intro off l o h
    unfold readOffsetArray at h
    obtain ⟨v, m, _, h2⟩ := cbind_okC h
    obtain ⟨vs, m2, hy, h3⟩ := cbind_okC h2
    injection h3 with h4 _
    rw [← h4]
    simp [ih _ _ _ hy]

/-- C4 counterexample: a well-formed version-4 protein index file with
`num_records = 0` (the legacy parser accepts it and produces offset tables
of length 1) makes the psq reader's `ParsePin` fail with its
corrupt-offsets error, because its validation requires table length at
least 2 and first entry strictly below the last, unconditionally. -/
theorem claim_C4_counterexample :
    parsePinFile [0,0,0,4, 0,0,0,1, 0,0,0,0, 0,0,0,0, 0,0,0,0,
                  0,0,0,0,0,0,0,0, 0,0,0,0, 0,0,0,0, 0,0,0,0] =
      .okC ⟨4, true, 0, "", "", "", 0, 0, 0, [0], [0], []⟩ 40 ∧
    parsePin [0,0,0,4, 0,0,0,1, 0,0,0,0, 0,0,0,0, 0,0,0,0,
              0,0,0,0,0,0,0,0, 0,0,0,0, 0,0,0,0, 0,0,0,0] =
      .errC "PIN sequence offsets appear to be corrupt" 32 := by decide

/-- C4 (amended): when the legacy `ParsePinFile` succeeds with
`num_records = 0` it produces offset tables of length exactly 1 and the
database yields no header records; the psq `ParsePin`, however, never
succeeds on `num_records = 0`: its offset validation (length at least 2,
first entry strictly below the last) rejects such files with the
corrupt-offsets error. -/
theorem claim_C4_theorem :
    (∀ (data : List Nat) (idx : PinIndex) (o : Nat) (phr : List Nat),
      parsePinFile data = .okC idx o → idx.num_oids = 0 →
      idx.header_offsets.length = 1 ∧ idx.sequence_offsets.length = 1 ∧
      extractHeaders idx phr = .ok []) ∧
    (∀ (data : List Nat) (idx : PsqPinIndex) (o : Nat),
      parsePin data = .okC idx o → idx.num_sequences ≠ 0) := by
  constructor
  · intro data idx o phr h h0
    unfold parsePinFile at h
    obtain ⟨version, o1, _, h⟩ := cbind_okC h
    split at h
    · exact absurd h (by simp)
    obtain ⟨seqTypeFlag, o2, _, h⟩ := cbind_okC h
    obtain ⟨volume, o3, _, h⟩ := cbind_okC h
    obtain ⟨title, o4, _, h⟩ := cbind_okC h
    obtain ⟨lmdb, o5, _, h⟩ := cbind_okC h
    obtain ⟨date, o6, _, h⟩ := cbind_okC h
    obtain ⟨numOids, o7, _, h⟩ := cbind_okC h
    obtain ⟨total, o8, _, h⟩ := cbind_okC h
    obtain ⟨maxLen, o9, _, h⟩ := cbind_okC h
    obtain ⟨hoffs, o10, hho, h⟩ := cbind_okC h
    obtain ⟨soffs, o11, hso, h⟩ := cbind_okC h
    obtain ⟨aoffs, o12, _, h⟩ := cbind_okC h
    injection h with h1 _
    subst h1
    have hnum : numOids = 0 := h0
    subst hnum
    refine ⟨?_, ?_, ?_⟩
    · show hoffs.length = 1
      have := readOffsetArray_length data _ _ _ _ hho
      omega
    · show soffs.length = 1
      have := readOffsetArray_length data _ _ _ _ hso
      omega
    · rfl
  · intro data idx o h
    unfold parsePin at h
    obtain ⟨ver, p1, _, h⟩ := cbind_okC h
    obtain ⟨ty, p2, _, h⟩ := cbind_okC h
    split at h
    · exact absurd h (by simp)
    obtain ⟨volume, p3, _, h⟩ := cbind_okC h
    obtain ⟨title, p4, _, h⟩ := cbind_okC h
    obtain ⟨lmdb, p5, _, h⟩ := cbind_okC h
    obtain ⟨date, p6, _, h⟩ := cbind_okC h
    obtain ⟨num, p7, _, h⟩ := cbind_okC h
    obtain ⟨total, p8, _, h⟩ := cbind_okC h
    obtain ⟨maxLen, p9, _, h⟩ := cbind_okC h
    split at h
    · exact absurd h (by simp)
    split at h
    · exact absurd h (by simp)
    rename_i hcorrupt
    split at h
    · exact absurd h (by simp)
    injection h with h1 _
    subst h1
    intro hzero
    have hnum : num = 0 := hzero
    subst hnum
    simp [psqSequenceOffsets] at hcorrupt

/-- C4 witness. -/
theorem claim_C4_witness :
    ((⟨4, true, 0, "", "", "", 0, 0, 0, [0], [0], []⟩ : PinIndex).header_offsets.length = 1 ∧
     (⟨4, true, 0, "", "", "", 0, 0, 0, [0], [0], []⟩ : PinIndex).sequence_offsets.length = 1 ∧
     extractHeaders ⟨4, true, 0, "", "", "", 0, 0, 0, [0], [0], []⟩ [] = .ok []) ∧
    (⟨4, 1, 0, "", "", "", 1, 0, 0, [0, 14]⟩ : PsqPinIndex).num_sequences ≠ 0 :=
  ⟨claim_C4_theorem.1
      [0,0,0,4, 0,0,0,1, 0,0,0,0, 0,0,0,0, 0,0,0,0,
       0,0,0,0,0,0,0,0, 0,0,0,0, 0,0,0,0, 0,0,0,0]
      ⟨4, true, 0, "", "", "", 0, 0, 0, [0], [0], []⟩ 40 [] (by decide) rfl,
   claim_C4_theorem.2
      [0,0,0,4, 0,0,0,1, 0,0,0,0, 0,0,0,0, 0,0,0,1,
       0,0,0,0,0,0,0,0, 0,0,0,0, 0,0,0,0, 0,0,0,0, 0,0,0,0, 0,0,0,14]
      ⟨4, 1, 0, "", "", "", 1, 0, 0, [0, 14]⟩ 32 (by decide)⟩

/-! ## Claim C9 -/

theorem readTag_ne_fuelOut (buf : List Nat) (off : Nat) : readTag buf off ≠ .fuelOut := by
  unfold readTag
  split
  · split <;> simp
  · simp

theorem readLenBytes_ne_fuelOut (buf : List Nat) :
    ∀ c off acc, readLenBytes buf c off acc ≠ .fuelOut := by
  intro c
  induction c with
  | zero => intro off acc; simp [readLenBytes]
  | succ c ih =>
    intro off acc
    unfold readLenBytes
    split
    · exact ih _ _
    · simp

theorem readLength_ne_fuelOut (buf : List Nat) (off : Nat) : readLength buf off ≠ .fuelOut := by
  unfold readLength
  split
  · split
    · simp
    · split
      · simp
      · split
        · simp
        · cases hr : readLenBytes buf (byteAt buf off % 128) (off+1) 0 with
          | ok p => simp [hr]
          | err e => simp [hr]
          | fuelOut => exact absurd hr (readLenBytes_ne_fuelOut buf _ _ _)
  · simp

/-- C9: `DecodeDeflineSet` raises an error to its caller exactly when
reading the blob's outermost tag fails (which happens only on an empty
blob), when that tag is not a universal sequence, or when reading the
outer length fails; every error after that point is converted into the
warning component of a normal result by the loop's catch handlers, for
any fuel. -/
theorem claim_C9_theorem (blob : List Nat) (fuel : Nat) :
    (∃ e, decodeDeflineSet blob fuel = .err e) ↔
    ((∃ e, readTag blob 0 = .err e) ∨
     (∃ t o1, readTag blob 0 = .ok (t, o1) ∧ (t.cls ≠ 0 ∨ t.number ≠ 16)) ∨
     (∃ t o1 e, readTag blob 0 = .ok (t, o1) ∧ t.cls = 0 ∧ t.number = 16 ∧
        readLength blob o1 = .err e)) := by
  cases ht : readTag blob 0 with
  | err e =>
    refine iff_of_true ⟨e, ?_⟩ (Or.inl ⟨e, rfl⟩)
    unfold decodeDeflineSet
    rw [ht]
  | fuelOut => exact absurd ht (readTag_ne_fuelOut blob 0)
  | ok p =>
    obtain ⟨t, o1⟩ := p
    by_cases hcls : t.cls = 0 ∧ t.number = 16
    · have hb : (!(t.cls == 0 && t.number == 16)) = false := by
        simp [hcls.1, hcls.2]
      cases hl : readLength blob o1 with
      | err e2 =>
        refine iff_of_true ⟨e2, ?_⟩ (Or.inr (Or.inr ⟨t, o1, e2, rfl, hcls.1, hcls.2, hl⟩))
        unfold decodeDeflineSet
        rw [ht]
        simp [hb, hl]
      | fuelOut => exact absurd hl (readLength_ne_fuelOut blob o1)
      | ok q =>
        obtain ⟨len, o2⟩ := q
        have hd2 : decodeDeflineSet blob fuel =
            (match deflineLoop blob fuel len.indefinite
                (if len.indefinite then blob.length else o2 + len.length) o2 [] with
             | .okD ls w => .ok (ls, w)
             | .fuelOutD => .fuelOut) := by
          unfold decodeDeflineSet
          rw [ht]
          simp [hb, hl]
        refine iff_of_false ?_ ?_
        · rw [hd2]
          cases deflineLoop blob fuel len.indefinite
              (if len.indefinite then blob.length else o2 + len.length) o2 [] with
          | okD ls w => rintro ⟨e, he⟩; cases he
          | fuelOutD => rintro ⟨e, he⟩; cases he
        · rintro (⟨e, h⟩ | ⟨t2, o2b, h, hne⟩ | ⟨t2, o2b, e, h, _, _, h3⟩)
          · cases h
          · injection h with ha
            injection ha with hat hao
            cases hat
            rcases hne with hne | hne
            · exact hne hcls.1
            · exact hne hcls.2
          · injection h with ha
            injection ha with hat hao
            cases hat
            cases hao
            rw [hl] at h3
            cases h3
    · have hb : (!(t.cls == 0 && t.number == 16)) = true := by
        rcases not_and_or.mp hcls with hne | hne <;> simp [hne]
      refine iff_of_true ⟨"Expected Blast-def-line-set sequence", ?_⟩
        (Or.inr (Or.inl ⟨t, o1, rfl, not_and_or.mp hcls⟩))
      unfold decodeDeflineSet
      rw [ht]
      simp [hb]

/-! ## Claim C1 -/

/-- C1 counterexample: in the blob below the outer set holds three
definition lines: one with title `"h"`, one whose taxid field is a
zero-length integer (decoding it raises "Invalid integer length"), and one
with title `"x"`.  The decoder returns only the first line together with
the warning — the third, fully decodable line is *not* decoded, because
the per-defline catch handler stops the loop instead of continuing with
the next definition line; dropping the malformed middle line (second
equation, same lines otherwise) shows the third line decodes fine. -/
theorem claim_C1_counterexample :
    decodeDeflineSet [48,14, 48,3,128,1,104, 48,2,130,0, 48,3,128,1,120] 100 =
      .ok ([⟨"h", [], none⟩], "Invalid integer length") ∧
    decodeDeflineSet [48,10, 48,3,128,1,104, 48,3,128,1,120] 100 =
      .ok ([⟨"h", [], none⟩, ⟨"x", [], none⟩], "") := by decide

/-- C1 (amended): when decoding the fields of one definition line raises
an error, the decoder keeps all fully decoded earlier lines, keeps the
partial line exactly when any of its title, seqids or taxid is populated,
attaches the error message as the warning — and then *stops*: the
remaining top-level definition lines are not decoded. -/
theorem claim_C1_theorem (buf : List Nat) (fuel : Nat) (indef : Bool) (e off : Nat)
    (acc : List BlastDefLine) (dtag : BerTag) (o1 : Nat) (dlen : BerLength) (o2 : Nat)
    (entry : BlastDefLine) (msg : String)
    (hend : loopEnd buf indef e off = false)
    (htag : readTag buf off = .ok (dtag, o1))
    (hcls : dtag.cls = 0) (hnum : dtag.number = 16) (hcon : dtag.constructed = true)
    (hlen : readLength buf o1 = .ok (dlen, o2))
    (hfields : fieldLoop buf fuel dlen.indefinite
        (if dlen.indefinite then buf.length else o2 + dlen.length) o2 ⟨"", [], none⟩ =
      .errF entry msg) :
    deflineLoop buf (fuel+1) indef e off acc =
      .okD (acc ++ (if populated entry then [entry] else [])) msg := by
  simp only [deflineLoop, hend, htag, hlen, hfields, hcls, hnum, hcon]
  simp [hfields]

/-- C1 witness: the failing middle line of the counterexample blob,
entered with one already-decoded line in the accumulator. -/
theorem claim_C1_witness :
    deflineLoop [48,14, 48,3,128,1,104, 48,2,130,0, 48,3,128,1,120] 100 false 16 7
      [⟨"h", [], none⟩] = .okD [⟨"h", [], none⟩] "Invalid integer length" := by
  have h := claim_C1_theorem [48,14, 48,3,128,1,104, 48,2,130,0, 48,3,128,1,120] 99 false 16 7
    [⟨"h", [], none⟩] ⟨0, true, 16⟩ 8 ⟨false, 2⟩ 9 ⟨"", [], none⟩ "Invalid integer length"
    (by decide) (by decide) rfl rfl rfl (by decide) (by decide)
  simpa using h

/-! ## Claim C6 -/

/-- A malformed header blob: an indefinite universal sequence holding an
indefinite definition line whose title wrapper (context tag 0,
indefinite) holds an indefinite universal sequence, with the buffer
ending right there — no end-of-contents markers anywhere. -/
def loopBlob : List Nat := [48, 128, 48, 128, 160, 128, 48, 128]

theorem evlScan_loopBlob : ∀ f, evlScan loopBlob f 8 8 = .fuelOut := by
  intro f
  induction f with
  | zero => rfl
  | succ f ih =>
    cases f with
    | zero => rfl
    | succ g =>
      have h1 : evlScan loopBlob (g+1+1) 8 8 =
          (match extractVisibleLike loopBlob (g+1) 8 8 with
           | .ok (some s, o) => .ok (some s, o)
           | .ok (none, o) => evlScan loopBlob (g+1) o 8
           | .err e => .err e
           | .fuelOut => .fuelOut) := rfl
      have hx : extractVisibleLike loopBlob (g+1) 8 8 = .ok (none, 8) := rfl
      rw [h1, hx]
      exact ih

theorem extractVisibleLike_loopBlob : ∀ f, extractVisibleLike loopBlob f 6 8 = .fuelOut := by
  intro f
  cases f with
  | zero => rfl
  | succ g =>
    have h1 : extractVisibleLike loopBlob (g+1) 6 8 =
        (match evlScan loopBlob g 8 8 with
         | .ok (some s, o3) => .ok (some s, o3)
         | .ok (none, o3) =>
           if o3 ≤ 6 then .err "Failed to advance while scanning for string element"
           else extractVisibleLike loopBlob g o3 8
         | .err e => .err e
         | .fuelOut => .fuelOut) := rfl
    rw [h1, evlScan_loopBlob g]

theorem parseExplicitVisible_loopBlob :
    ∀ f, parseExplicitVisible loopBlob f 6 ⟨true, 0⟩ = .fuelOut := by
  intro f
  cases f with
  | zero => rfl
  | succ g =>
    cases g with
    | zero => rfl
    | succ g2 =>
      have h1 : parseExplicitVisible loopBlob (g2+1+1) 6 ⟨true, 0⟩ =
          (match extractVisibleLike loopBlob (g2+1) 6 8 with
           | .ok (r, o) => pevFinish loopBlob (g2+1) 6 ⟨true, 0⟩ (r.getD "") o
           | .err e => .err e
           | .fuelOut => .fuelOut) := rfl
      rw [h1, extractVisibleLike_loopBlob (g2+1)]

theorem fieldLoop_loopBlob :
    ∀ f, fieldLoop loopBlob f true 8 4 ⟨"", [], none⟩ = .fuelOutF := by
  intro f
  cases f with
  | zero => rfl
  | succ g =>
    have h1 : fieldLoop loopBlob (g+1) true 8 4 ⟨"", [], none⟩ =
        (match parseExplicitVisible loopBlob g 6 ⟨true, 0⟩ with
         | .ok (s, o3) => fieldLoop loopBlob g true 8 o3 ⟨s, [], none⟩
         | .err er => .errF ⟨"", [], none⟩ er
         | .fuelOut => .fuelOutF) := rfl
    rw [h1, parseExplicitVisible_loopBlob g]

theorem deflineLoop_loopBlob :
    ∀ f, deflineLoop loopBlob f true 8 2 [] = .fuelOutD := by
  intro f
  cases f with
  | zero => rfl
  | succ g =>
    have h1 : deflineLoop loopBlob (g+1) true 8 2 [] =
        (match fieldLoop loopBlob g true 8 4 ⟨"", [], none⟩ with
         | .okF entry o3 => deflineLoop loopBlob g true 8 o3 ([] ++ [entry])
         | .errF entry er => .okD ([] ++ if populated entry then [entry] else []) er
         | .fuelOutF => .fuelOutD) := rfl
    rw [h1, fieldLoop_loopBlob g]

/-- C6: `DecodeDeflineSet` on `loopBlob` exhausts any amount of fuel —
the fuel-indexed model of the decoder never finishes on this blob, i.e.
the C++ decoder loops forever: the inner `while (true)` scan of
`ExtractVisibleLike` for a non-string indefinite element has no
forward-progress guard, and once the inner recursive call starts at the
scan limit it returns immediately without advancing, with no
end-of-contents marker in the buffer to stop the loop.  This contradicts
the forward-progress invariant the function's own comment claims to
enforce ("Safety: ensure forward progress to avoid infinite loops if the
input is malformed"). -/
theorem claim_C6_theorem : ∀ f, decodeDeflineSet loopBlob f = .fuelOut := by
  intro f
  have h1 : decodeDeflineSet loopBlob f =
      (match deflineLoop loopBlob f true 8 2 [] with
       | .okD ls w => .ok (ls, w)
       | .fuelOutD => .fuelOut) := rfl
  rw [h1, deflineLoop_loopBlob f]


/-! ## Claim C7 -/

/-- A primitive BER field (class, number, raw content bytes), describing
one element of a PDB identifier body. -/
structure TlvField where
  cls : Nat
  num : Nat
  content : List Nat
deriving DecidableEq

/-- Primitive short-form encoding of one field: identifier octet (class
bits, clear constructed bit, short number), one length byte, content. -/
def encodeField (fd : TlvField) : List Nat :=
  (fd.cls * 64 + fd.num) :: fd.content.length :: fd.content

/-- Concatenated encoding of a field list. -/
def encodeFields : List TlvField → List Nat
  | [] => []
  | fd :: rest => encodeField fd ++ encodeFields rest

/-- Well-formed primitive short-form field. -/
def fieldWf (fd : TlvField) : Prop :=
  fd.cls < 4 ∧ fd.num < 31 ∧ fd.content.length < 128

/-- The string a primitive field's content denotes (as `ParseString`
reads it). -/
def strField (fd : TlvField) : String :=
  String.mk (fd.content.map fun b => Char.ofNat (b % 256))

/-- The `ParseInteger` accumulation over a plain byte list. -/
def listIntAcc : List Nat → Int → Int
  | [], acc => acc
  | b :: t, acc => listIntAcc t (int64wrap (acc * 256 + ((b % 256 : Nat) : Int)))

/-- The integer a primitive field's content denotes (as `ParseInteger`
reads it). -/
def intField (fd : TlvField) : Int :=
  listIntAcc fd.content (if 128 ≤ fd.content.headD 0 % 256 then -1 else 0)

/-- The effect of one PDB field-loop iteration on the identifier being
built: the first universal 26 field while the value is empty becomes the
value, the first universal 2 field while the version is unset becomes the
version, everything else is skipped. -/
def pdbStep (id : SeqId) (fd : TlvField) : SeqId :=
  if fd.cls == 0 && fd.num == 26 && id.value == "" then
    { id with value := strField fd }
  else if fd.cls == 0 && fd.num == 2 && id.version.isNone then
    { id with version := some (intField fd) }
  else id

theorem byteAt_mark (pre rest : List Nat) (b : Nat) :
    byteAt (pre ++ b :: rest) pre.length = b % 256 := by
  unfold byteAt
  rw [List.getD_append_right _ _ _ _ le_rfl]
  simp

theorem charsOf_pre (suf : List Nat) :
    ∀ (content pre : List Nat),
      charsOf (pre ++ content ++ suf) pre.length content.length =
        content.map fun b => Char.ofNat (b % 256) := by
  intro content
  induction content with
  | nil => intro pre; simp [charsOf]
  | cons b t ih =>
    intro pre
    have hb : byteAt (pre ++ (b :: t) ++ suf) pre.length = b % 256 := by
      rw [List.append_assoc]
      exact byteAt_mark pre (t ++ suf) b
    have hre : pre ++ (b :: t) ++ suf = (pre ++ [b]) ++ t ++ suf := by simp
    have hlen : pre.length + 1 = (pre ++ [b]).length := by simp
    simp only [List.length_cons, charsOf, hb, List.map_cons]
    rw [hre, hlen, ih (pre ++ [b])]

theorem intAcc_pre (suf : List Nat) :
    ∀ (content pre : List Nat) (init : Int),
      intAcc (pre ++ content ++ suf) pre.length content.length init =
        listIntAcc content init := by
  intro content
  induction content with
  | nil => intro pre init; simp [intAcc, listIntAcc]
  | cons b t ih =>
    intro pre init
    have hb : byteAt (pre ++ (b :: t) ++ suf) pre.length = b % 256 := by
      rw [List.append_assoc]
      exact byteAt_mark pre (t ++ suf) b
    have hre : pre ++ (b :: t) ++ suf = (pre ++ [b]) ++ t ++ suf := by simp
    have hlen : pre.length + 1 = (pre ++ [b]).length := by simp
    simp only [List.length_cons, intAcc, listIntAcc, hb]
    rw [hre, hlen, ih (pre ++ [b])]

theorem readTag_field (pre rest : List Nat) (fd : TlvField) (hwf : fieldWf fd) :
    readTag (pre ++ encodeField fd ++ rest) pre.length =
      .ok (⟨fd.cls, false, fd.num⟩, pre.length + 1) := by
  obtain ⟨hc, hn, hl⟩ := hwf
  have hb : byteAt (pre ++ encodeField fd ++ rest) pre.length = fd.cls * 64 + fd.num := by
    have hre : pre ++ encodeField fd ++ rest =
        pre ++ (fd.cls * 64 + fd.num) :: (fd.content.length :: (fd.content ++ rest)) := by
      simp [encodeField]
    rw [hre, byteAt_mark]
    omega
  have hlt : pre.length < (pre ++ encodeField fd ++ rest).length := by
    simp [encodeField]
  unfold readTag
  rw [if_pos hlt, hb, if_neg (by omega : ¬ (fd.cls * 64 + fd.num) % 32 = 31)]
  have h1 : (fd.cls * 64 + fd.num) / 64 = fd.cls := by omega
  have h2 : (fd.cls * 64 + fd.num) % 32 = fd.num := by omega
  have h3 : (fd.cls * 64 + fd.num) / 32 % 2 = 0 := by omega
  rw [h1, h2, h3]
  rfl

theorem readLength_field (pre rest : List Nat) (fd : TlvField) (hwf : fieldWf fd) :
    readLength (pre ++ encodeField fd ++ rest) (pre.length + 1) =
      .ok (⟨false, fd.content.length⟩, pre.length + 2) := by
  obtain ⟨hc, hn, hl⟩ := hwf
  have hb : byteAt (pre ++ encodeField fd ++ rest) (pre.length + 1) = fd.content.length := by
    have hre : pre ++ encodeField fd ++ rest =
        (pre ++ [fd.cls * 64 + fd.num]) ++ fd.content.length :: (fd.content ++ rest) := by
      simp [encodeField]
    have hsh : pre.length + 1 = (pre ++ [fd.cls * 64 + fd.num]).length := by simp
    rw [hre, hsh, byteAt_mark]
    omega
  have hlt : pre.length + 1 < (pre ++ encodeField fd ++ rest).length := by
    simp [encodeField]
  unfold readLength
  rw [if_pos hlt, hb, if_neg (by omega : ¬ fd.content.length = 128),
      if_pos (by omega : fd.content.length < 128)]

theorem parseString_field (pre rest : List Nat) (fd : TlvField) :
    parseString (pre ++ encodeField fd ++ rest) (pre.length + 2) fd.content.length =
      .ok (strField fd, pre.length + 2 + fd.content.length) := by
  have hre : pre ++ encodeField fd ++ rest =
      (pre ++ [fd.cls * 64 + fd.num, fd.content.length]) ++ fd.content ++ rest := by
    simp [encodeField]
  have hc := charsOf_pre rest fd.content (pre ++ [fd.cls * 64 + fd.num, fd.content.length])
  rw [show (pre ++ [fd.cls * 64 + fd.num, fd.content.length]).length = pre.length + 2 by simp,
      ← hre] at hc
  unfold parseString
  rw [if_neg (by simp [encodeField]; omega)]
  unfold strOf
  rw [hc]
  rfl

theorem parseInteger_field (pre rest : List Nat) (fd : TlvField) (hne : fd.content ≠ []) :
    parseInteger (pre ++ encodeField fd ++ rest) (pre.length + 2) fd.content.length =
      .ok (intField fd, pre.length + 2 + fd.content.length) := by
  have hre : pre ++ encodeField fd ++ rest =
      (pre ++ [fd.cls * 64 + fd.num, fd.content.length]) ++ fd.content ++ rest := by
    simp [encodeField]
  have hi := intAcc_pre rest fd.content (pre ++ [fd.cls * 64 + fd.num, fd.content.length])
  rw [show (pre ++ [fd.cls * 64 + fd.num, fd.content.length]).length = pre.length + 2 by simp,
      ← hre] at hi
  have hsign : byteAt (pre ++ encodeField fd ++ rest) (pre.length + 2) =
      fd.content.headD 0 % 256 := by
    cases hcc : fd.content with
    | nil => exact absurd hcc hne
    | cons c t =>
      have hre2 : pre ++ encodeField fd ++ rest =
          (pre ++ [fd.cls * 64 + fd.num, fd.content.length]) ++ c :: (t ++ rest) := by
        simp [encodeField, hcc]
      have hsh : pre.length + 2 = (pre ++ [fd.cls * 64 + fd.num, fd.content.length]).length := by
        simp
      rw [hre2, hsh, byteAt_mark]
      rfl
  have hlen0 : fd.content.length ≠ 0 := by
    cases hcc : fd.content with
    | nil => exact absurd hcc hne
    | cons c t => simp
  unfold parseInteger
  rw [if_neg (by
    push_neg
    refine ⟨hlen0, ?_⟩
    simp [encodeField]
    omega)]
  rw [hsign, hi]
  rfl

theorem encodeFields_cons (fd : TlvField) (rest : List TlvField) :
    encodeFields (fd :: rest) = encodeField fd ++ encodeFields rest := rfl

theorem encodeField_length (fd : TlvField) :
    (encodeField fd).length = 2 + fd.content.length := by
  simp [encodeField]
  omega

theorem pdbLoop_fields :
    ∀ (fs : List TlvField) (pre suf : List Nat) (id : SeqId) (f : Nat),
      (∀ fd ∈ fs, fieldWf fd) →
      (∀ fd ∈ fs, fd.cls = 0 → fd.num = 2 → fd.content ≠ []) →
      fs.length < f →
      pdbLoop (pre ++ encodeFields fs ++ suf) f false
          (pre.length + (encodeFields fs).length) pre.length id =
        .ok (fs.foldl pdbStep id, pre.length + (encodeFields fs).length) := by
  intro fs
  induction fs with
  | nil =>
    intro pre suf id f _ _ hf
    obtain ⟨f2, rfl⟩ : ∃ f2, f = f2 + 1 := ⟨f - 1, by omega⟩
    simp [pdbLoop, encodeFields, loopEnd]
  | cons fd rest ih =>
    intro pre suf id f hwf hint hf
    obtain ⟨f2, rfl⟩ : ∃ f2, f = f2 + 1 := ⟨f - 1, by omega⟩
    have hwfd : fieldWf fd := hwf fd (by simp)
    have hbuf : pre ++ encodeFields (fd :: rest) ++ suf =
        pre ++ encodeField fd ++ (encodeFields rest ++ suf) := by
      simp [encodeFields_cons]
    have hE : pre.length + (encodeFields (fd :: rest)).length =
        (pre.length + 2 + fd.content.length) + (encodeFields rest).length := by
      rw [encodeFields_cons]
      simp [encodeField_length]
      omega
    have htag : readTag (pre ++ encodeFields (fd :: rest) ++ suf) pre.length =
        .ok (⟨fd.cls, false, fd.num⟩, pre.length + 1) := by
      rw [hbuf]; exact readTag_field _ _ _ hwfd
    have hlen : readLength (pre ++ encodeFields (fd :: rest) ++ suf) (pre.length + 1) =
        .ok (⟨false, fd.content.length⟩, pre.length + 2) := by
      rw [hbuf]; exact readLength_field _ _ _ hwfd
    have hEnd : loopEnd (pre ++ encodeFields (fd :: rest) ++ suf) false
        (pre.length + (encodeFields (fd :: rest)).length) pre.length = false := by
      show decide ((pre.length + (encodeFields (fd :: rest)).length) ≤ pre.length) = false
      rw [decide_eq_false_iff_not, hE]
      omega
    have hih := ih (pre ++ encodeField fd) suf (pdbStep id fd) f2
      (fun g hg => hwf g (by simp [hg]))
      (fun g hg => hint g (by simp [hg]))
      (by rw [List.length_cons] at hf; omega)
    rw [show (pre ++ encodeField fd) ++ encodeFields rest ++ suf =
          pre ++ encodeFields (fd :: rest) ++ suf by rw [hbuf]; simp,
        show (pre ++ encodeField fd).length = pre.length + 2 + fd.content.length by
          simp [encodeField_length]; omega] at hih
    rw [← hE] at hih
    simp only [pdbLoop, hEnd, htag, hlen, Bool.false_eq_true, if_false, List.foldl_cons]
    cases hA : (fd.cls == 0 && fd.num == 26 && id.value == "") with
    | true =>
      have hps : parseString (pre ++ encodeFields (fd :: rest) ++ suf)
          (pre.length + 2) fd.content.length =
          .ok (strField fd, pre.length + 2 + fd.content.length) := by
        rw [hbuf]; exact parseString_field _ _ _
      have hstep : pdbStep id fd = { id with value := strField fd } := by
        simp [pdbStep, hA]
      simp only [hA, if_true, hps]
      rw [← hstep]
      exact hih
    | false =>
      cases hB : (fd.cls == 0 && fd.num == 2 && id.version.isNone) with
      | true =>
        have hcls0 : fd.cls = 0 := by
          simp only [Bool.and_eq_true, beq_iff_eq] at hB
          exact hB.1.1
        have hnum2 : fd.num = 2 := by
          simp only [Bool.and_eq_true, beq_iff_eq] at hB
          exact hB.1.2
        have hne : fd.content ≠ [] := hint fd (by simp) hcls0 hnum2
        have hpi : parseInteger (pre ++ encodeFields (fd :: rest) ++ suf)
            (pre.length + 2) fd.content.length =
            .ok (intField fd, pre.length + 2 + fd.content.length) := by
          rw [hbuf]; exact parseInteger_field _ _ _ hne
        have hstep : pdbStep id fd = { id with version := some (intField fd) } := by
          simp [pdbStep, hA, hB]
        simp only [hA, hB, Bool.false_eq_true, if_false, if_true, hpi]
        rw [← hstep]
        exact hih
      | false =>
        have hstep : pdbStep id fd = id := by
          simp [pdbStep, hA, hB]
        simp only [hA, hB, Bool.false_eq_true, if_false]
        rw [hstep] at hih ⊢
        exact hih

theorem pdbStep_type (id : SeqId) (fd : TlvField) : (pdbStep id fd).type = id.type := by
  unfold pdbStep
  split
  · rfl
  · split <;> rfl

theorem pdbFold_type : ∀ (fs : List TlvField) (id : SeqId),
    (List.foldl pdbStep id fs).type = id.type := by
  intro fs
  induction fs with
  | nil => intro id; rfl
  | cons fd rest ih => intro id; rw [List.foldl_cons, ih, pdbStep_type]

theorem pdbStep_value_keep (id : SeqId) (fd : TlvField) (h : id.value ≠ "") :
    (pdbStep id fd).value = id.value := by
  have hb : (id.value == "") = false := beq_eq_false_iff_ne.mpr h
  unfold pdbStep
  rw [hb]
  simp only [Bool.and_false, Bool.false_eq_true, if_false]
  split <;> rfl

theorem pdbFold_value_keep : ∀ (fs : List TlvField) (id : SeqId), id.value ≠ "" →
    (List.foldl pdbStep id fs).value = id.value := by
  intro fs
  induction fs with
  | nil => intro id _; rfl
  | cons fd rest ih =>
    intro id h
    rw [List.foldl_cons, ih _ (by rw [pdbStep_value_keep id fd h]; exact h),
        pdbStep_value_keep id fd h]

theorem pdbStep_value_not26 (id : SeqId) (fd : TlvField)
    (h : (fd.cls == 0 && fd.num == 26) = false) : (pdbStep id fd).value = id.value := by
  unfold pdbStep
  rw [h]
  simp only [Bool.false_and, Bool.false_eq_true, if_false]
  split <;> rfl

theorem pdbFold_value : ∀ (fs : List TlvField) (id : SeqId) (fd26 : TlvField),
    id.value = "" →
    fs.find? (fun g => g.cls == 0 && g.num == 26) = some fd26 →
    strField fd26 ≠ "" →
    (List.foldl pdbStep id fs).value = strField fd26 := by
  intro fs
  induction fs with
  | nil => intro id fd26 _ hfind _; cases hfind
  | cons fd rest ih =>
    intro id fd26 hv hfind hs
    cases hp : (fd.cls == 0 && fd.num == 26) with
    | true =>
      rw [@List.find?_cons_of_pos _ (fun g => g.cls == 0 && g.num == 26) fd rest hp] at hfind
      injection hfind with hfd
      subst hfd
      have hA : (fd.cls == 0 && fd.num == 26 && id.value == "") = true := by
        rw [hp, hv]
        rfl
      have hstep : pdbStep id fd = { id with value := strField fd } := by
        unfold pdbStep
        rw [hA]
        rfl
      rw [List.foldl_cons, hstep,
          pdbFold_value_keep rest { id with value := strField fd } (by simpa using hs)]
    | false =>
      rw [@List.find?_cons_of_neg _ (fun g => g.cls == 0 && g.num == 26) fd rest (by simp [hp])] at hfind
      rw [List.foldl_cons]
      exact ih (pdbStep id fd) fd26 (by rw [pdbStep_value_not26 id fd hp]; exact hv) hfind hs

theorem pdbStep_version_keep (id : SeqId) (fd : TlvField) (h : id.version.isNone = false) :
    (pdbStep id fd).version = id.version := by
  unfold pdbStep
  rw [h]
  simp only [Bool.and_false, Bool.false_eq_true, if_false]
  split <;> rfl

theorem pdbFold_version_keep : ∀ (fs : List TlvField) (id : SeqId), id.version.isNone = false →
    (List.foldl pdbStep id fs).version = id.version := by
  intro fs
  induction fs with
  | nil => intro id _; rfl
  | cons fd rest ih =>
    intro id h
    rw [List.foldl_cons, ih _ (by rw [pdbStep_version_keep id fd h]; exact h),
        pdbStep_version_keep id fd h]

theorem pdbStep_version_not2 (id : SeqId) (fd : TlvField)
    (h : (fd.cls == 0 && fd.num == 2) = false) : (pdbStep id fd).version = id.version := by
  unfold pdbStep
  rw [h]
  simp only [Bool.false_and, Bool.false_eq_true, if_false]
  split <;> rfl

theorem pdbFold_version : ∀ (fs : List TlvField) (id : SeqId) (fd2 : TlvField),
    id.version = none →
    fs.find? (fun g => g.cls == 0 && g.num == 2) = some fd2 →
    (List.foldl pdbStep id fs).version = some (intField fd2) := by
  intro fs
  induction fs with
  | nil => intro id fd2 _ hfind; cases hfind
  | cons fd rest ih =>
    intro id fd2 hv hfind
    cases hp : (fd.cls == 0 && fd.num == 2) with
    | true =>
      rw [@List.find?_cons_of_pos _ (fun g => g.cls == 0 && g.num == 2) fd rest hp] at hfind
      injection hfind with hfd
      subst hfd
      have hnum : fd.num = 2 := by
        simp only [Bool.and_eq_true, beq_iff_eq] at hp
        exact hp.2
      have hA : (fd.cls == 0 && fd.num == 26 && id.value == "") = false := by
        rw [show (fd.num == 26) = false by rw [hnum]; rfl]
        simp
      have hB : (fd.cls == 0 && fd.num == 2 && id.version.isNone) = true := by
        rw [hp, hv]
        rfl
      have hstep : pdbStep id fd = { id with version := some (intField fd) } := by
        unfold pdbStep
        rw [hA, hB]
        rfl
      rw [List.foldl_cons, hstep,
          pdbFold_version_keep rest { id with version := some (intField fd) } (by simp)]
    | false =>
      rw [@List.find?_cons_of_neg _ (fun g => g.cls == 0 && g.num == 2) fd rest (by simp [hp])] at hfind
      rw [List.foldl_cons]
      exact ih (pdbStep id fd) fd2 (by rw [pdbStep_version_not2 id fd hp]; exact hv) hfind

/-- C7: decoding a context-specific constructed tag-14 element whose body
is the sequence of primitive fields `fs` (short-form lengths) yields type
`"pdb"`, value equal to the content of the first universal-26 string
field, and version equal to the integer of the first universal-2 field.
The identifier octet 174 is `0xAE`: context-specific class, constructed
bit, number 14. -/
theorem claim_C7_theorem (fs : List TlvField) (fd26 fd2 : TlvField) (f : Nat)
    (hwf : ∀ fd ∈ fs, fieldWf fd)
    (hint : ∀ fd ∈ fs, fd.cls = 0 → fd.num = 2 → fd.content ≠ [])
    (h26 : fs.find? (fun g => g.cls == 0 && g.num == 26) = some fd26)
    (hs : strField fd26 ≠ "")
    (h2 : fs.find? (fun g => g.cls == 0 && g.num == 2) = some fd2)
    (hlen : (encodeFields fs).length < 128)
    (hf : fs.length + 1 < f) :
    parseSeqId ((174 : Nat) :: (encodeFields fs).length :: encodeFields fs) f 0 =
      .ok (⟨"pdb", strField fd26, some (intField fd2)⟩, 2 + (encodeFields fs).length) := by
  obtain ⟨f2, rfl⟩ : ∃ f2, f = f2 + 1 := ⟨f - 1, by omega⟩
  have hbuf : (174 : Nat) :: (encodeFields fs).length :: encodeFields fs =
      [174, (encodeFields fs).length] ++ encodeFields fs ++ [] := by simp
  have htag : readTag ((174 : Nat) :: (encodeFields fs).length :: encodeFields fs) 0 =
      .ok (⟨2, true, 14⟩, 1) := by
    unfold readTag
    rw [if_pos (by simp)]
    norm_num [byteAt]
  have hlen1 : readLength ((174 : Nat) :: (encodeFields fs).length :: encodeFields fs) 1 =
      .ok (⟨false, (encodeFields fs).length⟩, 2) := by
    unfold readLength
    rw [if_pos (by simp)]
    have hb : byteAt ((174 : Nat) :: (encodeFields fs).length :: encodeFields fs) 1 =
        (encodeFields fs).length := by
      show (encodeFields fs).length % 256 = (encodeFields fs).length
      omega
    rw [hb, if_neg (by omega), if_pos (by omega)]
  have hpl := pdbLoop_fields fs [174, (encodeFields fs).length] [] ⟨"pdb", "", none⟩ f2
    hwf hint (by omega)
  rw [← hbuf, show ([174, (encodeFields fs).length] : List Nat).length = 2 from rfl] at hpl
  have hF26 : (List.foldl pdbStep ⟨"pdb", "", none⟩ fs).value = strField fd26 :=
    pdbFold_value fs ⟨"pdb", "", none⟩ fd26 rfl h26 hs
  have hF2 : (List.foldl pdbStep ⟨"pdb", "", none⟩ fs).version = some (intField fd2) :=
    pdbFold_version fs ⟨"pdb", "", none⟩ fd2 rfl h2
  have hFty : (List.foldl pdbStep ⟨"pdb", "", none⟩ fs).type = "pdb" :=
    pdbFold_type fs ⟨"pdb", "", none⟩
  have hFval : ((List.foldl pdbStep ⟨"pdb", "", none⟩ fs).value == "") = false :=
    beq_eq_false_iff_ne.mpr (by rw [hF26]; exact hs)
  have hFeta : List.foldl pdbStep ⟨"pdb", "", none⟩ fs =
      ⟨"pdb", strField fd26, some (intField fd2)⟩ := by
    rw [show (⟨"pdb", strField fd26, some (intField fd2)⟩ : SeqId) =
          ⟨(List.foldl pdbStep ⟨"pdb", "", none⟩ fs).type,
           (List.foldl pdbStep ⟨"pdb", "", none⟩ fs).value,
           (List.foldl pdbStep ⟨"pdb", "", none⟩ fs).version⟩ by rw [hF26, hF2, hFty]]
  simp only [parseSeqId, htag, hlen1, tagNameFromNumber]
  norm_num
  rw [hpl]
  simp only [hFval, Bool.false_eq_true, if_false]
  rw [hFeta]
  rw [if_neg (by simpa using hs)]

/-- C7 witness: the element `AE 09 | 1A 04 "2HBS" | 02 01 05` decodes to
type `"pdb"`, value `"2HBS"`, version 5. -/
theorem claim_C7_witness :
    parseSeqId [174, 9, 26, 4, 50, 72, 66, 83, 2, 1, 5] 20 0 =
      .ok (⟨"pdb", "2HBS", some 5⟩, 11) := by
  have h := claim_C7_theorem [⟨0, 26, [50, 72, 66, 83]⟩, ⟨0, 2, [5]⟩]
    ⟨0, 26, [50, 72, 66, 83]⟩ ⟨0, 2, [5]⟩ 20
    (by
      intro fd hfd
      simp only [List.mem_cons, List.not_mem_nil, or_false] at hfd
      rcases hfd with rfl | rfl
      · exact ⟨by norm_num, by norm_num, by norm_num⟩
      · exact ⟨by norm_num, by norm_num, by norm_num⟩)
    (by decide) (by decide) (by decide) (by decide) (by decide) (by decide)
  have h2 : parseSeqId [174, 9, 26, 4, 50, 72, 66, 83, 2, 1, 5] 20 0 =
      .ok (⟨"pdb", strField ⟨0, 26, [50, 72, 66, 83]⟩,
            some (intField ⟨0, 2, [5]⟩)⟩,
           2 + (encodeFields [⟨0, 26, [50, 72, 66, 83]⟩, ⟨0, 2, [5]⟩]).length) := h
  rw [h2]
  decide
